import Mathlib

/-!
Verification development for the photo-selector application core:
the ingestion/dedup pipeline (`PhotoManager.processUpload` and the
`PHOTOS_UPLOAD` handler), the batched analysis engine
(`ClaudeVisionService.analyzePhotos` / `analyzeBatch`), the similarity
grouping engine (`SimilarityGroupingService.groupPhotos` / `processBatch` /
`assignGroups`), the tolerant response parsers, and the shared retry policy.

The TypeScript sources are embedded shallowly:

* The photo table of the SQLite store is a `List Photo`; each SQL statement
  of the source is embedded as the corresponding pure list transformation.
* JavaScript numbers are modelled as exact decimals `mant * 10 ^ exp`
  (`JsNum`).  Every number the embedded code paths manipulate is a decimal
  literal from JSON text or the result of `* 10`, `+ 0.5`, `Math.round`, or
  `/ 10`, so exact decimal arithmetic models them without floating-point
  rounding; binary-rounding artefacts of IEEE doubles are outside the model.
* The external vision service, filesystem reads, the thumbnail producer and
  the content hasher are environment parameters; a run is a deterministic
  function of the environment.
* Fallible JavaScript evaluation (a thrown `TypeError`, a driver binding
  error, a failed `fs` call) is `Except`/`Option`-valued.
* Wall-clock effects (the `setTimeout` back-off delays) and per-batch
  console/progress reporting are returned as explicit event lists.
-/

namespace PhotoSelector

/-! ## Exact decimal numbers (JavaScript number idealisation) -/

/-- Exact decimal `mant * 10 ^ exp`, the model of a JavaScript number as it
flows through `JSON.parse`, `Math.round` and score arithmetic. -/
structure JsNum where
  mant : Int
  exp : Int
deriving DecidableEq, Repr

namespace JsNum

/-- Rational value denoted by a `JsNum`. -/
def toQ (d : JsNum) : ℚ := (d.mant : ℚ) * 10 ^ d.exp

/-- Decimal with integer value `n`. -/
def ofInt (n : Int) : JsNum := ⟨n, 0⟩

/-- Mantissa of `a` rescaled to the exponent `min a.exp b.exp`, so that two
decimals can be compared integrally. -/
def alignedMant (a b : JsNum) : Int :=
  a.mant * 10 ^ (a.exp - min a.exp b.exp).toNat

/-- Semantic (value) equality of decimals, the model of `===` between two
JavaScript numbers. -/
def beq (a b : JsNum) : Bool := alignedMant a b == alignedMant b a

/-- Semantic order on decimals. -/
def leb (a b : JsNum) : Bool := alignedMant a b ≤ alignedMant b a

/-- Sum of two decimals (exact). -/
def add (a b : JsNum) : JsNum :=
  ⟨alignedMant a b + alignedMant b a, min a.exp b.exp⟩

/-- Floor of a decimal as an integer. -/
def floorD (d : JsNum) : Int :=
  if 0 ≤ d.exp then d.mant * 10 ^ d.exp.toNat
  else d.mant.fdiv (10 ^ (-d.exp).toNat)

/-- Model of `Math.round`: round half towards positive infinity, which on
exact values is `⌊x + 1/2⌋`. -/
def jsRound (d : JsNum) : Int := floorD (add d ⟨5, -1⟩)

/-- Model of `Math.round(x * 10) / 10`, the one-decimal rounding applied to
scores by `ClaudeVisionService.analyzeBatch`. -/
def round1 (d : JsNum) : JsNum := ⟨jsRound ⟨d.mant, d.exp + 1⟩, -1⟩

end JsNum

/-- Value equality between a JavaScript number and a photo id (`===` in
`photos.find((p) => p.id === evaluation.photo_id)`). -/
def numEqNat (d : JsNum) (n : Nat) : Bool := d.beq (JsNum.ofInt n)

/-! ## JSON values and JavaScript dynamic semantics -/

/-- Result of `JSON.parse`: a JSON value tree.  Numbers are exact decimals. -/
inductive Json where
  | jnull
  | jbool (b : Bool)
  | jnum (v : JsNum)
  | jstr (s : String)
  | jarr (elems : List Json)
  | jobj (fields : List (String × Json))

/-- Discriminator for the JavaScript `null` value, on which any property
access throws a `TypeError`. -/
def Json.isNull : Json → Bool
  | .jnull => true
  | _ => false

/-- Last binding of key `k` in an object's field list; `JSON.parse` keeps the
last of duplicate keys, and property lookup returns it. -/
def lookupLast (fields : List (String × Json)) (k : String) : Option Json :=
  fields.foldl (fun acc kv => if kv.1 = k then some kv.2 else acc) none

/-- Property access `v.k` for non-null `v`: a binding on objects, `undefined`
(`none`) on everything else.  Access on `null` throws and is handled by the
callers before using this. -/
def getMember : Json → String → Option Json
  | .jobj fields, k => lookupLast fields k
  | _, _ => none

/-- Iteration `for (x of v)` over a possibly-`undefined` value: arrays yield
their elements, strings their one-character strings, anything else (including
`undefined`, `null`, numbers, booleans and plain objects) raises a
`TypeError`. -/
def iterateJs : Option Json → Except Unit (List Json)
  | some (.jarr l) => .ok l
  | some (.jstr s) => .ok (s.toList.map fun c => .jstr (String.mk [c]))
  | _ => .error ()

/-- Decimal denoted by a numeric string, for the `ToNumber` coercion of a
string (`"8.5" * 10`).  Restricted to optionally-signed decimal forms; the
exotic inputs `Number` also accepts (hex, binary, `Infinity`) map to `NaN`
(`none`), a corner no embedded code path reaches with a value whose
coercion matters. -/
def strToNumber (s : String) : Option JsNum :=
  let t := s.toList.dropWhile (fun c => c = ' ' || c = '\t' || c = '\n' || c = '\r')
  let t := (t.reverse.dropWhile (fun c => c = ' ' || c = '\t' || c = '\n' || c = '\r')).reverse
  match t with
  | [] => some ⟨0, 0⟩
  | _ =>
    let (neg, t₁) := match t with
      | '-' :: r => (true, r)
      | '+' :: r => (false, r)
      | _ => (false, t)
    let (ip, ipN, t₂) := takeDigitsAux t₁ 0 0
    let (fp, fpN, t₃) := match t₂ with
      | '.' :: r => takeDigitsAux r 0 0
      | _ => (0, 0, t₂)
    if ipN = 0 ∧ fpN = 0 then none
    else
      let (eSign, t₄) := match t₃ with
        | 'e' :: '-' :: r => ((-1 : Int), r)
        | 'e' :: '+' :: r => (1, r)
        | 'e' :: r => (1, r)
        | 'E' :: '-' :: r => ((-1 : Int), r)
        | 'E' :: '+' :: r => (1, r)
        | _ => (1, t₃)
      let (ev, evN, t₅) := takeDigitsAux t₄ 0 0
      if (t₃ ≠ t₄ ∧ evN = 0) ∨ ¬ t₅.isEmpty then none
      else
        let mantNat : Nat := ip * 10 ^ fpN + fp
        let m : Int := if neg then -(mantNat : Int) else (mantNat : Int)
        some ⟨m, eSign * ev - (fpN : Int)⟩
where
  /-- Consume a maximal run of ASCII digits, returning the value read, the
  number of digits, and the rest. -/
  takeDigitsAux : List Char → Nat → Nat → Nat × Nat × List Char
    | [], acc, n => (acc, n, [])
    | c :: rest, acc, n =>
      if c.isDigit then takeDigitsAux rest (acc * 10 + (c.toNat - 48)) (n + 1)
      else (acc, n, c :: rest)

/-- Model of the `ToNumber` coercion applied by `evaluation.score * 10`.
`none` is `NaN`.  Arrays and objects go through `ToPrimitive`; that
string round-trip is approximated as `NaN`, a corner that only changes
which out-of-contract garbage value gets stored. -/
def toNumber : Option Json → Option JsNum
  | none => none
  | some .jnull => some ⟨0, 0⟩
  | some (.jbool b) => some (if b then ⟨1, 0⟩ else ⟨0, 0⟩)
  | some (.jnum v) => some v
  | some (.jstr s) => strToNumber s
  | some (.jarr _) => none
  | some (.jobj _) => none

/-- Value equality between `evaluation.photo_id` (any JavaScript value) and
a numeric photo id under `===`: true only for a number of equal value. -/
def jsEqNat (v : Option Json) (n : Nat) : Bool :=
  match v with
  | some (.jnum d) => numEqNat d n
  | _ => false

/-- Datum stored by the SQLite driver for a bound parameter. -/
inductive SqlData where
  | text (s : String)
  | real (v : JsNum)
deriving DecidableEq, Repr

/-- Binding of `evaluation.comment` by the driver: strings and numbers are
stored, `null` stores NULL, and `undefined`, booleans, arrays and objects
are rejected with an error (`none`). -/
def bindData : Option Json → Option (Option SqlData)
  | some (.jstr s) => some (some (.text s))
  | some (.jnum v) => some (some (.real v))
  | some .jnull => some none
  | _ => none

/-! ## JSON text parsing (model of `JSON.parse`) -/

/-- JSON whitespace (exactly space, tab, newline, carriage return). -/
def isJsonWs (c : Char) : Bool := c = ' ' || c = '\t' || c = '\n' || c = '\r'

/-- Consume a maximal digit run: value, digit count, rest. -/
def takeDigits : List Char → Nat → Nat → Nat × Nat × List Char
  | [], acc, n => (acc, n, [])
  | c :: rest, acc, n =>
    if c.isDigit then takeDigits rest (acc * 10 + (c.toNat - 48)) (n + 1)
    else (acc, n, c :: rest)

/-- Parse a JSON number at the head of the input (grammar
`-? (0 | [1-9][0-9]*) (. [0-9]+)? ([eE] [+-]? [0-9]+)?`). -/
def parseJsonNumber (s : List Char) : Option (JsNum × List Char) :=
  let (neg, s₁) := match s with
    | '-' :: r => (true, r)
    | _ => (false, s)
  match s₁ with
  | [] => none
  | c₀ :: _ =>
    if ¬ c₀.isDigit then none
    else
      let (ip, ipN, s₂) := takeDigits s₁ 0 0
      if ipN = 0 ∨ (c₀ = '0' ∧ ipN ≠ 1) then none
      else
        let fracStep : Option (Nat × Nat × List Char) := match s₂ with
          | '.' :: r =>
            let (f, fn, r') := takeDigits r 0 0
            if fn = 0 then none else some (f, fn, r')
          | _ => some (0, 0, s₂)
        match fracStep with
        | none => none
        | some (fp, fpN, s₃) =>
          let expStep : Option (Int × List Char) := match s₃ with
            | 'e' :: r | 'E' :: r =>
              let (eSign, r₁) := match r with
                | '-' :: r' => ((-1 : Int), r')
                | '+' :: r' => ((1 : Int), r')
                | _ => ((1 : Int), r)
              let (ev, evN, r₂) := takeDigits r₁ 0 0
              if evN = 0 then none else some (eSign * ev, r₂)
            | _ => some (0, s₃)
          match expStep with
          | none => none
          | some (e, s₄) =>
            let mantNat : Nat := ip * 10 ^ fpN + fp
            let m : Int := if neg then -(mantNat : Int) else (mantNat : Int)
            some (⟨m, e - (fpN : Int)⟩, s₄)

/-- Parse the body of a JSON string after the opening quote.  Unescaped
control characters are rejected; escapes cover the JSON set.  A `\u` escape
must denote a Unicode scalar value (lone surrogates are outside the model,
which no embedded code path produces). -/
def parseJsonString : List Char → List Char → Option (String × List Char)
  | [], _ => none
  | '"' :: rest, acc => some (String.mk acc.reverse, rest)
  | '\\' :: rest, acc =>
    match rest with
    | '"' :: r => parseJsonString r ('"' :: acc)
    | '\\' :: r => parseJsonString r ('\\' :: acc)
    | '/' :: r => parseJsonString r ('/' :: acc)
    | 'b' :: r => parseJsonString r ('\x08' :: acc)
    | 'f' :: r => parseJsonString r ('\x0c' :: acc)
    | 'n' :: r => parseJsonString r ('\n' :: acc)
    | 'r' :: r => parseJsonString r ('\r' :: acc)
    | 't' :: r => parseJsonString r ('\t' :: acc)
    | 'u' :: h₁ :: h₂ :: h₃ :: h₄ :: r =>
      match hexVal h₁, hexVal h₂, hexVal h₃, hexVal h₄ with
      | some a, some b, some c, some d =>
        let n := ((a * 16 + b) * 16 + c) * 16 + d
        if h : n < 0xd800 ∨ (0xdfff < n ∧ n < 0x110000) then
          parseJsonString r (Char.ofNatAux n (by omega) :: acc)
        else none
      | _, _, _, _ => none
    | _ => none
  | c :: rest, acc =>
    if c.toNat < 0x20 then none else parseJsonString rest (c :: acc)
where
  /-- Value of one hex digit. -/
  hexVal (c : Char) : Option Nat :=
    if c.isDigit then some (c.toNat - 48)
    else if 'a' ≤ c ∧ c ≤ 'f' then some (c.toNat - 87)
    else if 'A' ≤ c ∧ c ≤ 'F' then some (c.toNat - 55)
    else none

mutual

/-- Parse one JSON value at the head of the (whitespace-stripped) input.
Fuel decreases on every nested call; `jsonParse` supplies enough for any
input. -/
def parseJsonValue : Nat → List Char → Option (Json × List Char)
  | 0, _ => none
  | fuel + 1, s =>
    match s.dropWhile isJsonWs with
    | [] => none
    | c :: rest =>
      if c = '"' then (parseJsonString rest []).map fun (str, r) => (.jstr str, r)
      else if c = '[' then
        match (rest.dropWhile isJsonWs) with
        | ']' :: r => some (.jarr [], r)
        | _ => (parseJsonElems fuel rest).map fun (l, r) => (.jarr l, r)
      else if c = '{' then
        match (rest.dropWhile isJsonWs) with
        | '}' :: r => some (.jobj [], r)
        | _ => (parseJsonMembers fuel rest).map fun (l, r) => (.jobj l, r)
      else if c = 't' then
        match rest with
        | 'r' :: 'u' :: 'e' :: r => some (.jbool true, r)
        | _ => none
      else if c = 'f' then
        match rest with
        | 'a' :: 'l' :: 's' :: 'e' :: r => some (.jbool false, r)
        | _ => none
      else if c = 'n' then
        match rest with
        | 'u' :: 'l' :: 'l' :: r => some (.jnull, r)
        | _ => none
      else (parseJsonNumber (c :: rest)).map fun (v, r) => (.jnum v, r)

/-- Parse a non-empty comma-separated element list and the closing `]`. -/
def parseJsonElems : Nat → List Char → Option (List Json × List Char)
  | 0, _ => none
  | fuel + 1, s =>
    match parseJsonValue fuel s with
    | none => none
    | some (v, r) =>
      match r.dropWhile isJsonWs with
      | ',' :: r₁ =>
        (parseJsonElems fuel r₁).map fun (l, r₂) => (v :: l, r₂)
      | ']' :: r₁ => some ([v], r₁)
      | _ => none

/-- Parse a non-empty comma-separated member list and the closing `}`. -/
def parseJsonMembers : Nat → List Char → Option (List (String × Json) × List Char)
  | 0, _ => none
  | fuel + 1, s =>
    match s.dropWhile isJsonWs with
    | '"' :: r =>
      match parseJsonString r [] with
      | none => none
      | some (k, r₁) =>
        match r₁.dropWhile isJsonWs with
        | ':' :: r₂ =>
          match parseJsonValue fuel r₂ with
          | none => none
          | some (v, r₃) =>
            match r₃.dropWhile isJsonWs with
            | ',' :: r₄ =>
              (parseJsonMembers fuel r₄).map fun (l, r₅) => ((k, v) :: l, r₅)
            | '}' :: r₄ => some ([(k, v)], r₄)
            | _ => none
        | _ => none
    | _ => none

end

/-- Model of `JSON.parse`: parse one value and require only whitespace after
it; any failure is the thrown `SyntaxError` (`none`). -/
def jsonParse (s : String) : Option Json :=
  match parseJsonValue (s.length + 1) s.toList with
  | some (v, rest) => if (rest.dropWhile isJsonWs).isEmpty then some v else none
  | none => none

/-! ## Fenced-block extraction (the regex in `parseResponse`)

Model of `text.match(/` ```(?:json)?\s*([\s\S]*?)\s*``` `/)`: the leftmost
position where the pattern matches, trying the greedy `(?:json)?` and the
greedy `\s*` runs first and the lazy capture shortest-first, exactly as the
backtracking engine does.  `\s` is modelled over its ASCII members (space,
tab, line feed, vertical tab, form feed, carriage return); the non-ASCII
space characters it also matches do not occur in the embedded inputs. -/

/-- ASCII fragment of the regex class `\s` (and of `String.prototype.trim`). -/
def isSpaceJS (c : Char) : Bool :=
  c = ' ' || c = '\t' || c = '\n' || c = '\r' || c = '\x0b' || c = '\x0c'

/-- Sequence `pat` is a prefix of `s`. -/
def startsWithSeq : List Char → List Char → Bool
  | [], _ => true
  | _ :: _, [] => false
  | p :: ps, c :: cs => p = c && startsWithSeq ps cs

/-- Sequence `pat` occurs somewhere in `s`. -/
def hasSeq (pat : List Char) : List Char → Bool
  | [] => startsWithSeq pat []
  | c :: cs => startsWithSeq pat (c :: cs) || hasSeq pat cs

/-- Three backticks, the fence delimiter. -/
def ticks : List Char := ['`', '`', '`']

/-- Whether `\s*` followed by a closing fence matches at this position: the
greedy whitespace run, then three backticks. -/
def tailFence (s : List Char) : Bool := startsWithSeq ticks (s.dropWhile isSpaceJS)

/-- Lazy capture group `([\s\S]*?)` before `\s*` + closing fence: the
shortest prefix after which the closing part matches; `none` when no closing
fence exists. -/
def lazyCapture : List Char → Option (List Char)
  | [] => if tailFence [] then some [] else none
  | c :: rest =>
    if tailFence (c :: rest) then some []
    else (lazyCapture rest).map (c :: ·)

/-- Continuation after an opening fence: the greedy optional `json` tag
first, then the greedy leading `\s*` (equivalent to `dropWhile`, since a
backtick is not whitespace), then the lazy capture. -/
def fenceTail (s : List Char) : Option (List Char) :=
  match (if startsWithSeq ['j', 's', 'o', 'n'] s
         then lazyCapture ((s.drop 4).dropWhile isSpaceJS) else none) with
  | some cap => some cap
  | none => lazyCapture (s.dropWhile isSpaceJS)

/-- Leftmost match of the fence regex: at each position that starts with
three backticks, try the continuation; on failure resume the scan one
character later, as the engine does. -/
def findFence : List Char → Option (List Char)
  | [] => none
  | c :: rest =>
    if startsWithSeq ticks (c :: rest) then
      match fenceTail (rest.drop 2) with
      | some cap => some cap
      | none => findFence rest
    else findFence rest

/-- Model of `String.prototype.trim` over its ASCII whitespace. -/
def jsTrim (s : List Char) : List Char :=
  ((s.dropWhile isSpaceJS).reverse.dropWhile isSpaceJS).reverse

/-- Text handed to `JSON.parse` by both `parseResponse` methods: the capture
of the fence regex when it matches, the trimmed text otherwise. -/
def extractJsonStr (text : String) : String :=
  match findFence text.toList with
  | some cap => String.mk cap
  | none => String.mk (jsTrim text.toList)

/-- Model of `ClaudeVisionService.parseResponse`: `JSON.parse` the extracted
text and return its value as-is (the declared shape is not validated); on a
parse failure return `{ evaluations: [] }`. -/
def ClaudeVisionService.parseResponse (text : String) : Json :=
  match jsonParse (extractJsonStr text) with
  | some v => v
  | none => .jobj [("evaluations", .jarr [])]

/-- Model of `SimilarityGroupingService.parseResponse`: same extraction, with
`{ groups: [] }` as the failure fallback. -/
def SimilarityGroupingService.parseResponse (text : String) : Json :=
  match jsonParse (extractJsonStr text) with
  | some v => v
  | none => .jobj [("groups", .jarr [])]

/-! ## Photo store -/

/-- Row of the `photos` table (schema of migration `001_initial_schema`).
Timestamps are abstract ticks; `score` is a REAL or NULL; `ai_comment`
holds whatever datum the driver bound. -/
structure Photo where
  id : Nat
  project_id : Nat
  original_filename : String
  original_path : String
  thumbnail_path : String
  file_hash : String
  file_size : Nat
  score : Option JsNum
  ai_comment : Option SqlData
  selected : Bool
  similarity_group_id : Option Nat
  created_at : Nat
  updated_at : Nat
deriving DecidableEq, Repr

/-- Row of the `projects` table (fields the embedded code reads). -/
structure Project where
  id : Nat
  name : String
  prompt : Option String
deriving DecidableEq, Repr

/-- Effect of `UPDATE photos SET score = ?, ai_comment = ?, updated_at =
datetime('now') WHERE id = ?` where the id parameter is the JavaScript value
`evaluation.photo_id`: rows whose integer id equals that numeric value are
updated. -/
def updateScore (db : List Photo) (score : Option JsNum) (comment : Option SqlData)
    (now : Nat) (pid : Option Json) : List Photo :=
  db.map fun r =>
    if jsEqNat pid r.id then
      { r with score := score, ai_comment := comment, updated_at := now }
    else r

/-- Effect of `UPDATE photos SET similarity_group_id = NULL WHERE project_id = ?`. -/
def clearGroups (db : List Photo) (projectId : Nat) : List Photo :=
  db.map fun r =>
    if r.project_id == projectId then { r with similarity_group_id := none } else r

/-- Effect of `UPDATE photos SET similarity_group_id = ? WHERE id = ?` with a
concrete photo id. -/
def setGroupId (db : List Photo) (gid : Nat) (phId : Nat) : List Photo :=
  db.map fun r =>
    if r.id == phId then { r with similarity_group_id := some gid } else r

/-- Model of `ORDER BY id`. -/
def sortById (l : List Photo) : List Photo :=
  l.insertionSort fun a b => a.id ≤ b.id

/-! ## Batch scheduling -/

/-- Fuelled form of the slicing loop `for (let i = 0; i < photos.length;
i += BATCH_SIZE) photos.slice(i, i + BATCH_SIZE)`; the fuel only bounds the
recursion and `chunks` always supplies enough. -/
def chunksF (B : Nat) : Nat → List Photo → List (List Photo)
  | 0, _ => []
  | _, [] => []
  | fuel + 1, l => l.take B :: chunksF B fuel (l.drop B)

/-- Batch partition used by both services (`BATCH_SIZE` 10 for scoring, 20
for grouping). -/
def chunks (B : Nat) (l : List Photo) : List (List Photo) :=
  chunksF B l.length l

/-! ## Scoring service (`ClaudeVisionService`) -/

/-- Outcome of one `client.messages.create` call: a rate-limit rejection
(status 429), any other rejection, or a fulfilled response whose first
content block is text, is not text, or is absent (making
`response.content[0].type` throw). -/
inductive SvcOutcome where
  | rateLimit
  | failure
  | replyText (text : String)
  | replyNonText
  | replyEmpty
deriving DecidableEq, Repr

/-- Environment of an analysis run: the service's outcome for the n-th call
of the run, the readable thumbnail files, and the clock. -/
structure VisionEnv where
  svc : Nat → SvcOutcome
  fsRead : String → Option String
  now : Nat

/-- Photos of a batch whose thumbnail read succeeds; the content array built
by `analyzeBatch`/`processBatch` is empty exactly when this is. -/
def contentPhotos (env : VisionEnv) (photos : List Photo) : List Photo :=
  photos.filter fun p => (env.fsRead p.thumbnail_path).isSome

/-- Evaluation list iterated by `for (const evaluation of
parsed.evaluations)`: property access on `null` and iteration of anything
but an array or string raise a `TypeError`. -/
def evaluationsList (parsed : Json) : Except Unit (List Json) :=
  if parsed.isNull then .error ()
  else iterateJs (getMember parsed "evaluations")

/-- Loop body of `analyzeBatch` over the parsed evaluations: find the
evaluation's photo in this batch, round its score to one decimal, and run
the UPDATE; a driver binding error aborts the loop, keeping the earlier
writes. -/
def applyEvaluations (now : Nat) (db : List Photo) (photos : List Photo) :
    List Json → List Photo × Except Unit Unit
  | [] => (db, .ok ())
  | e :: rest =>
    if e.isNull then (db, .error ())
    else
      let pid := getMember e "photo_id"
      match photos.find? (fun p => jsEqNat pid p.id) with
      | none => applyEvaluations now db photos rest
      | some _ =>
        let score := (toNumber (getMember e "score")).map JsNum.round1
        match bindData (getMember e "comment") with
        | none => (db, .error ())
        | some comment =>
          applyEvaluations now (updateScore db score comment now pid) photos rest

/-- Fuelled form of `ClaudeVisionService.analyzeBatch(photos, retryCount)`.
Returns the store, the outcome (`error` models the method throwing), the
`setTimeout` delays in milliseconds, and the next call index.  The fuel-0
branch is unreachable for the calling pattern `fuel = 4 - retryCount`. -/
def analyzeBatchF (env : VisionEnv) (photos : List Photo) :
    Nat → List Photo → Nat → Nat → List Photo × Except Unit Unit × List Nat × Nat
  | 0, db, idx, _ => (db, .error (), [], idx)
  | fuel + 1, db, idx, retryCount =>
    if (contentPhotos env photos).isEmpty then (db, .ok (), [], idx)
    else
      match env.svc idx with
      | .replyText t =>
        match evaluationsList (ClaudeVisionService.parseResponse t) with
        | .error _ => (db, .error (), [], idx + 1)
        | .ok evals =>
          let (db', r) := applyEvaluations env.now db photos evals
          (db', r, [], idx + 1)
      | .replyNonText => (db, .ok (), [], idx + 1)
      | .replyEmpty => (db, .error (), [], idx + 1)
      | .failure => (db, .error (), [], idx + 1)
      | .rateLimit =>
        if retryCount < 3 then
          let (db', r, ds, idx') := analyzeBatchF env photos fuel db (idx + 1) (retryCount + 1)
          (db', r, (retryCount + 1) * 5000 :: ds, idx')
        else (db, .error (), [], idx + 1)

/-- Model of `ClaudeVisionService.analyzeBatch(photos)` from the initial
`retryCount = 0`. -/
def ClaudeVisionService.analyzeBatch (env : VisionEnv) (db : List Photo)
    (photos : List Photo) (idx : Nat) : List Photo × Except Unit Unit × List Nat × Nat :=
  analyzeBatchF env photos 4 db idx 0

/-- Observable outcome of a scoring run: final store, returned count, final
call index, one `(batch size, completed without error)` entry per batch (the
log/progress surface), and all back-off delays. -/
structure RunOut where
  db : List Photo
  ret : Nat
  callIdx : Nat
  batchLog : List (Nat × Bool)
  delays : List Nat
deriving Repr

/-- Batch loop of `analyzePhotos`: each batch is analyzed in order; a batch
that throws is logged and skipped, a batch that completes adds its size to
`processed`. -/
def scoreLoop (env : VisionEnv) : List (List Photo) → List Photo → Nat → Nat → RunOut
  | [], db, idx, processed => ⟨db, processed, idx, [], []⟩
  | b :: bs, db, idx, processed =>
    let (db', r, ds, idx') := ClaudeVisionService.analyzeBatch env db b idx
    match r with
    | .ok _ =>
      let out := scoreLoop env bs db' idx' (processed + b.length)
      ⟨out.db, out.ret, out.callIdx, (b.length, true) :: out.batchLog, ds ++ out.delays⟩
    | .error _ =>
      let out := scoreLoop env bs db' idx' processed
      ⟨out.db, out.ret, out.callIdx, (b.length, false) :: out.batchLog, ds ++ out.delays⟩

/-- Model of `ClaudeVisionService.analyzePhotos`: select the project's
unscored photos ordered by id, partition into batches of 10, process them
sequentially, and return the processed count. -/
def ClaudeVisionService.analyzePhotos (env : VisionEnv) (db : List Photo)
    (projectId : Nat) : RunOut :=
  let photos := sortById (db.filter fun p => p.project_id == projectId && p.score.isNone)
  if photos.length = 0 then ⟨db, 0, 0, [], []⟩
  else scoreLoop env (chunks 10 photos) db 0 0

/-! ## Grouping service (`SimilarityGroupingService`) -/

/-- Shape of `group.photo_ids || []` as the subsequent `.length` guard and
`.includes` calls see it: an array, a (non-empty) string, or a value on
which `.length` is `undefined` (so `undefined < 2` is false) and
`.includes` raises a `TypeError`.  Falsy values collapse to the empty
array. -/
inductive PidsRep where
  | list (l : List Json)
  | str (s : String)
  | bad

/-- Coercion of the `photo_ids` property to `PidsRep`. -/
def photoIdsRep : Option Json → PidsRep
  | none => .list []
  | some .jnull => .list []
  | some (.jbool false) => .list []
  | some (.jbool true) => .bad
  | some (.jnum d) => if d.mant = 0 then .list [] else .bad
  | some (.jstr s) => if s = "" then .list [] else .str s
  | some (.jarr l) => .list l
  | some (.jobj _) => .bad

/-- Guard `photoIds.length < 2` (false when `.length` is `undefined`). -/
def repShort : PidsRep → Bool
  | .list l => l.length < 2
  | .str s => s.length < 2
  | .bad => false

/-- Array membership `photoIds.includes(p.id)` under SameValueZero: true
only for an element that is a number of equal value. -/
def jsonElemEqNat (v : Json) (n : Nat) : Bool :=
  match v with
  | .jnum d => numEqNat d n
  | _ => false

/-- Batch photos selected by `photos.filter((p) => photoIds.includes(p.id))`;
on a string, `includes` searches for the decimal rendering of the id as a
substring. -/
def matchedOf (batch : List Photo) : PidsRep → List Photo
  | .list l => batch.filter fun p => l.any (jsonElemEqNat · p.id)
  | .str s => batch.filter fun p => hasSeq (Nat.repr p.id).toList s.toList
  | .bad => []

/-- Model of `SimilarityGroupingService.assignGroups`: per proposal, skip
when fewer than two ids or fewer than two matching batch photos; otherwise
allocate the next group id and persist it on every matching photo.  A
`TypeError` (null proposal, malformed `photo_ids`) aborts the loop, keeping
the groups already written. -/
def SimilarityGroupingService.assignGroups (batch : List Photo) :
    List Json → List Photo → Nat → List Photo × Nat × Except Unit Unit
  | [], db, nextGid => (db, nextGid, .ok ())
  | g :: rest, db, nextGid =>
    if g.isNull then (db, nextGid, .error ())
    else
      let rep := photoIdsRep (getMember g "photo_ids")
      if repShort rep then SimilarityGroupingService.assignGroups batch rest db nextGid
      else
        match rep with
        | .bad => (db, nextGid, .error ())
        | _ =>
          let matched := matchedOf batch rep
          if matched.length < 2 then
            SimilarityGroupingService.assignGroups batch rest db nextGid
          else
            SimilarityGroupingService.assignGroups batch rest
              (matched.foldl (fun acc p => setGroupId acc nextGid p.id) db) (nextGid + 1)

/-- Group list iterated by `for (const group of parsed.groups)` inside
`assignGroups`. -/
def groupsList (parsed : Json) : Except Unit (List Json) :=
  if parsed.isNull then .error ()
  else iterateJs (getMember parsed "groups")

/-- Fuelled form of `SimilarityGroupingService.processBatch(photos,
retryCount)`; same retry skeleton as the scoring side, with group
assignment in place of score writes.  Returns store, next group id,
outcome, delays and next call index. -/
def processBatchF (env : VisionEnv) (photos : List Photo) :
    Nat → List Photo → Nat → Nat → Nat →
    List Photo × Nat × Except Unit Unit × List Nat × Nat
  | 0, db, nextGid, idx, _ => (db, nextGid, .error (), [], idx)
  | fuel + 1, db, nextGid, idx, retryCount =>
    if (contentPhotos env photos).isEmpty then (db, nextGid, .ok (), [], idx)
    else
      match env.svc idx with
      | .replyText t =>
        match groupsList (SimilarityGroupingService.parseResponse t) with
        | .error _ => (db, nextGid, .error (), [], idx + 1)
        | .ok gs =>
          let (db', gid', r) := SimilarityGroupingService.assignGroups photos gs db nextGid
          (db', gid', r, [], idx + 1)
      | .replyNonText => (db, nextGid, .ok (), [], idx + 1)
      | .replyEmpty => (db, nextGid, .error (), [], idx + 1)
      | .failure => (db, nextGid, .error (), [], idx + 1)
      | .rateLimit =>
        if retryCount < 3 then
          let (db', gid', r, ds, idx') :=
            processBatchF env photos fuel db nextGid (idx + 1) (retryCount + 1)
          (db', gid', r, (retryCount + 1) * 5000 :: ds, idx')
        else (db, nextGid, .error (), [], idx + 1)

/-- Model of `SimilarityGroupingService.processBatch(photos)` from
`retryCount = 0`. -/
def SimilarityGroupingService.processBatch (env : VisionEnv) (db : List Photo)
    (photos : List Photo) (nextGid : Nat) (idx : Nat) :
    List Photo × Nat × Except Unit Unit × List Nat × Nat :=
  processBatchF env photos 4 db nextGid idx 0

/-- Batch loop of `groupPhotos`: batches with fewer than two photos are
skipped; a batch's failure is swallowed and the run continues. -/
def groupLoop (env : VisionEnv) :
    List (List Photo) → List Photo → Nat → Nat → List Photo × Nat × Nat × List Nat
  | [], db, nextGid, idx => (db, nextGid, idx, [])
  | b :: bs, db, nextGid, idx =>
    if b.length < 2 then groupLoop env bs db nextGid idx
    else
      let (db', gid', _r, ds, idx') := SimilarityGroupingService.processBatch env db b nextGid idx
      let (db'', gid'', idx'', ds') := groupLoop env bs db' gid' idx'
      (db'', gid'', idx'', ds ++ ds')

/-- Count of `SELECT COUNT(DISTINCT similarity_group_id) ... WHERE project_id
= ? AND similarity_group_id IS NOT NULL`. -/
def countDistinctGroups (db : List Photo) (projectId : Nat) : Nat :=
  (((db.filter fun p => p.project_id == projectId).filterMap
      fun p => p.similarity_group_id).dedup).length

/-- Model of `SimilarityGroupingService.groupPhotos`: clear the project's
group ids, load its photos ordered by id, return 0 when fewer than two,
otherwise process batches of 20 and recount the persisted groups from the
store.  Returns final store, returned count, and back-off delays. -/
def SimilarityGroupingService.groupPhotos (env : VisionEnv) (db : List Photo)
    (projectId : Nat) : List Photo × Nat × List Nat :=
  let db₀ := clearGroups db projectId
  let photos := sortById (db₀.filter fun p => p.project_id == projectId)
  if photos.length < 2 then (db₀, 0, [])
  else
    let (db', _, _, ds) := groupLoop env (chunks 20 photos) db₀ 1 0
    (db', countDistinctGroups db' projectId, ds)

/-! ## Ingestion pipeline (`PhotoManager.processUpload` and the
`PHOTOS_UPLOAD` handler) -/

/-- Store state relevant to ingestion: the photos table plus the
auto-increment counter for photo ids. -/
structure Store where
  photos : List Photo
  nextPhotoId : Nat
deriving DecidableEq, Repr

/-- Flat file system: an association of paths to byte contents (bytes as an
opaque string).  Directories are implicit. -/
structure Disk where
  files : List (String × String)
deriving DecidableEq, Repr

/-- Content at a path, `none` when unreadable/absent. -/
def Disk.read (d : Disk) (p : String) : Option String :=
  (d.files.find? fun kv => kv.1 == p).map (·.2)

/-- Write (create or overwrite) a file. -/
def Disk.write (d : Disk) (p c : String) : Disk :=
  ⟨(p, c) :: d.files.filter fun kv => !(kv.1 == p)⟩

/-- POSIX `path.basename`. -/
def basenameOf (p : String) : String := (p.splitOn "/").getLastD ""

/-- Index just past the last `.` usable as an extension separator: the last
dot of the name, ignoring a dot at position 0 (`path.extname(".bashrc")`
is empty). -/
def extIdx (cs : List Char) : Option Nat :=
  match (cs.reverse.findIdx? fun c => c = '.') with
  | none => none
  | some i =>
    let j := cs.length - 1 - i
    if j = 0 then none else some j

/-- Model of `path.extname` on a basename. -/
def extnameOf (filename : String) : String :=
  match extIdx filename.toList with
  | none => ""
  | some j => String.mk (filename.toList.drop j)

/-- Basename with its extension removed (`path.basename(f, ext)` /
`path.parse(f).name`). -/
def stemOf (filename : String) : String :=
  match extIdx filename.toList with
  | none => filename
  | some j => String.mk (filename.toList.take j)

/-- Model of `path.join` for two segments. -/
def pjoin (a b : String) : String := a ++ "/" ++ b

/-- Model of `sanitizeName`: replace every character outside
`[0-9A-Za-z.\-\s]` with `_`, then trim. -/
def sanitizeName (name : String) : String :=
  String.mk (jsTrim (name.toList.map fun c =>
    if c.isAlphanum || c = '.' || c = '-' || isSpaceJS c then c else '_'))

/-- Environment of an ingestion run: storage root, content hasher
(`crypto.createHash('sha256')`), thumbnail producer (`sharp(...).toFile`),
the gray-placeholder producer, and the clock. -/
structure IngestEnv where
  storagePath : String
  hash : String → String
  thumb : String → Option String
  placeholder : Option String
  now : Nat

/-- Model of `getProjectPath`. -/
def getProjectPath (env : IngestEnv) (projectName : String) : String :=
  pjoin env.storagePath (sanitizeName projectName)

/-- Collision loop `while (fsSync.existsSync(originalPath)) ...`: starting
from the plain filename and `counter = 1`, append `_counter` before the
extension until the destination is free.  The fuel only bounds the loop;
`disk.files.length + 1` probes always reach a free name because the
candidate names are pairwise distinct. -/
def freeNameF (disk : Disk) (dir base ext : String) :
    Nat → Nat → String → Option String
  | 0, _, _ => none
  | fuel + 1, counter, current =>
    if (disk.read (pjoin dir current)).isSome then
      freeNameF disk dir base ext fuel (counter + 1)
        (base ++ "_" ++ toString counter ++ ext)
    else some current

/-- Result record of `processUpload`. -/
structure UploadResult where
  duplicate : Bool
  photo : Option Photo
  existingPhoto : Option Photo
deriving DecidableEq, Repr

/-- Per-file ingestion failure: the initial `fs.readFile` rejecting (the
only failure the embedding surfaces), or fuel exhaustion in the modelled
collision loop (unreachable with the supplied fuel). -/
inductive UploadErr where
  | readErr
  | nameSearchOverflow
deriving DecidableEq, Repr

/-- Model of `PhotoManager.processUpload`: read and hash the file, return
the existing photo on a fingerprint hit with no mutation, otherwise copy
the original under a collision-free name, produce a thumbnail (placeholder
on failure, original path as last resort), and insert the new row. -/
def PhotoManager.processUpload (env : IngestEnv) (store : Store) (disk : Disk)
    (proj : Project) (filePath : String) :
    Except UploadErr (Store × Disk × UploadResult) :=
  match disk.read filePath with
  | none => .error .readErr
  | some fileBuffer =>
    let fileHash := env.hash fileBuffer
    match store.photos.find? (fun p => p.project_id == proj.id && p.file_hash == fileHash) with
    | some existing => .ok (store, disk, ⟨true, none, some existing⟩)
    | none =>
      let filename := basenameOf filePath
      let projectPath := getProjectPath env proj.name
      let originalsDir := pjoin projectPath "originals"
      match freeNameF disk originalsDir (stemOf filename) (extnameOf filename)
          (disk.files.length + 1) 1 filename with
      | none => .error .nameSearchOverflow
      | some originalFilename =>
        let originalPath := pjoin originalsDir originalFilename
        let disk₁ := disk.write originalPath fileBuffer
        let thumbnailPath := pjoin (pjoin projectPath "thumbnails")
          (stemOf originalFilename ++ "_thumb.jpg")
        let (disk₂, generated) :=
          match env.thumb filePath with
          | some tb => (disk₁.write thumbnailPath tb, true)
          | none =>
            match env.placeholder with
            | some pb => (disk₁.write thumbnailPath pb, true)
            | none => (disk₁, false)
        let finalThumbnailPath := if generated then thumbnailPath else originalPath
        let photo : Photo :=
          ⟨store.nextPhotoId, proj.id, originalFilename, originalPath,
            finalThumbnailPath, fileHash, fileBuffer.length, none, none, false,
            none, env.now, env.now⟩
        .ok (⟨store.photos ++ [photo], store.nextPhotoId + 1⟩, disk₂, ⟨false, some photo, none⟩)

/-- Aggregate result of the `PHOTOS_UPLOAD` handler. -/
structure UploadResults where
  uploaded : Nat
  duplicates : Nat
  photos : List Photo
deriving DecidableEq, Repr

/-- File loop of the `PHOTOS_UPLOAD` handler.  There is no try/catch around
`processUpload`, so a per-file error rejects the whole handler; mutations
made for earlier files persist. -/
def uploadLoop (env : IngestEnv) (proj : Project) :
    List String → Store → Disk → UploadResults →
    Store × Disk × Except UploadErr UploadResults
  | [], st, dk, acc => (st, dk, .ok acc)
  | fp :: rest, st, dk, acc =>
    match PhotoManager.processUpload env st dk proj fp with
    | .error e => (st, dk, .error e)
    | .ok (st', dk', r) =>
      let acc' :=
        if r.duplicate then { acc with duplicates := acc.duplicates + 1 }
        else { acc with uploaded := acc.uploaded + 1,
                        photos := acc.photos ++ r.photo.toList }
      uploadLoop env proj rest st' dk' acc'

/-- Model of the `PHOTOS_UPLOAD` handler body after the project lookup. -/
def photosUploadHandler (env : IngestEnv) (st : Store) (dk : Disk)
    (proj : Project) (filePaths : List String) :
    Store × Disk × Except UploadErr UploadResults :=
  uploadLoop env proj filePaths st dk ⟨0, 0, []⟩

/-! ## Observation helpers used by the statements -/

/-- Sum of the sizes of the batches a run log marks as completed without
error. -/
def sumOkLog (log : List (Nat × Bool)) : Nat :=
  log.foldl (fun a e => a + if e.2 then e.1 else 0) 0

/-- Number of a project's photos persisted with group id `g`. -/
def countMembers (db : List Photo) (projectId g : Nat) : Nat :=
  (db.filter fun p => p.project_id == projectId && p.similarity_group_id == some g).length

/-- Evaluations a response text contributes (empty when iterating them would
throw). -/
def evaluationsOf (t : String) : List Json :=
  match evaluationsList (ClaudeVisionService.parseResponse t) with
  | .ok l => l
  | .error _ => []

/-- Group proposals a response text contributes (empty when iterating them
would throw). -/
def proposalsOf (t : String) : List Json :=
  match groupsList (SimilarityGroupingService.parseResponse t) with
  | .ok l => l
  | .error _ => []

/-- Batch photos a proposal resolves to. -/
def proposalMatched (batch : List Photo) (g : Json) : List Photo :=
  matchedOf batch (photoIdsRep (getMember g "photo_ids"))

/-- Score value carried by an evaluation after the `ToNumber` coercion
(`none` is `NaN`). -/
def scoreOfEval (e : Json) : Option JsNum := toNumber (getMember e "score")

/-- Relation `R` holds between a store and the store after one evaluation
pass of the given batch, for any evaluation list whose members satisfy the
guard `P`. -/
def StepRel (env : VisionEnv) (photos : List Photo) (P : Json → Prop)
    (R : Photo → Photo → Prop) : Prop :=
  ∀ (db : List Photo) (evals : List Json), (∀ e ∈ evals, P e) →
    List.Forall₂ R db (applyEvaluations env.now db photos evals).1

/-- Score value inside the documented `[0.0, 10.0]` contract. -/
def scoreInRange (d : JsNum) : Prop := 0 ≤ d.toQ ∧ d.toQ ≤ 10

/-- Row whose persisted score, when non-null, is inside `[0.0, 10.0]`. -/
def rowScoreOk (p : Photo) : Prop := ∀ d, p.score = some d → scoreInRange d

/-- Score cell as the Scoring Reconciler leaves it after a write: NULL (a
`NaN` coerced score) or an in-range value that is a whole number of
tenths. -/
def writtenScoreOk (q : Photo) : Prop :=
  q.score = none ∨ ∃ d, q.score = some d ∧ scoreInRange d ∧ ∃ k : ℤ, d.toQ = (k : ℚ) / 10

/-- Evaluation whose coerced score value, when not `NaN`, is inside
`[0.0, 10.0]`. -/
def evalScoreOk (e : Json) : Prop := ∀ d, scoreOfEval e = some d → scoreInRange d

/-- Frame relation of a scoring run: every column other than `score`,
`ai_comment` and `updated_at` is unchanged. -/
def ScoreFrame (p q : Photo) : Prop :=
  q.id = p.id ∧ q.project_id = p.project_id ∧
  q.original_filename = p.original_filename ∧ q.original_path = p.original_path ∧
  q.thumbnail_path = p.thumbnail_path ∧ q.file_hash = p.file_hash ∧
  q.file_size = p.file_size ∧ q.selected = p.selected ∧
  q.similarity_group_id = p.similarity_group_id ∧ q.created_at = p.created_at

/-- Frame relation of a grouping run: every column other than
`similarity_group_id` is unchanged (including `score`, `ai_comment`,
`selected` and both timestamps). -/
def GroupFrame (p q : Photo) : Prop :=
  q.id = p.id ∧ q.project_id = p.project_id ∧
  q.original_filename = p.original_filename ∧ q.original_path = p.original_path ∧
  q.thumbnail_path = p.thumbnail_path ∧ q.file_hash = p.file_hash ∧
  q.file_size = p.file_size ∧ q.score = p.score ∧ q.ai_comment = p.ai_comment ∧
  q.selected = p.selected ∧ q.created_at = p.created_at ∧ q.updated_at = p.updated_at

/-- Photo ids a group proposal's assignment pass writes: empty when the
proposal is skipped (fewer than two ids or fewer than two matching batch
photos) or raises (null proposal, malformed `photo_ids`), and the matched
photos' ids when the proposal is applied — the same guard cascade as
`assignGroups`. -/
def appliedIds (b : List Photo) (g : Json) : List Nat :=
  if g.isNull then []
  else
    let rep := photoIdsRep (getMember g "photo_ids")
    if repShort rep then []
    else
      match rep with
      | .bad => []
      | _ =>
        let matched := matchedOf b rep
        if matched.length < 2 then [] else matched.map Photo.id

/-- Proposal list whose applied id sets are pairwise disjoint on the given
batch. -/
def pairwiseApplied (b : List Photo) (gs : List Json) : Prop :=
  List.Pairwise (fun g₁ g₂ => ∀ n ∈ appliedIds b g₁, n ∉ appliedIds b g₂) gs

/-- Service whose group proposals never overlap within one reply: on any
batch, the proposals of any text the service returns write pairwise
disjoint id sets. -/
def proposalsDisjoint (env : VisionEnv) : Prop :=
  ∀ (i : Nat) (t : String), env.svc i = .replyText t →
    ∀ b : List Photo, pairwiseApplied b (proposalsOf t)

/-- Store in which every group id persisted in the project has at least two
members — no singleton group. -/
def goodCounts (db : List Photo) (pid : Nat) : Prop :=
  ∀ g : Nat, countMembers db pid g = 0 ∨ 2 ≤ countMembers db pid g

/-- Store whose project rows carry only group ids below the allocator's next
value. -/
def freshGids (db : List Photo) (pid nextGid : Nat) : Prop :=
  ∀ r ∈ db, r.project_id = pid → ∀ g, r.similarity_group_id = some g → g < nextGid

/-- Row evolution across one batch of a grouping run: id and project are
kept, and only rows of the batch can change their group id. -/
def GRel (bIds : List Nat) (r r' : Photo) : Prop :=
  r'.id = r.id ∧ r'.project_id = r.project_id ∧
    (r'.similarity_group_id = r.similarity_group_id ∨ r.id ∈ bIds)

/-! # Theorems

Shared infrastructure lemmas first, then one theorem (plus witness or
counterexample) per claim. -/

/-! ### List infrastructure -/

theorem forall₂_map_of {R : Photo → Photo → Prop} {f : Photo → Photo}
    (l : List Photo) (h : ∀ x, R x (f x)) : List.Forall₂ R l (l.map f) := by
  induction l with
  | nil => exact .nil
  | cons a t ih => exact .cons (h a) ih

theorem forall₂_trans_of {R : Photo → Photo → Prop}
    (htr : ∀ x y z, R x y → R y z → R x z) :
    ∀ {a b c : List Photo}, List.Forall₂ R a b → List.Forall₂ R b c →
      List.Forall₂ R a c := by
  intro a b c hab hbc
  induction hab generalizing c with
  | nil => cases hbc; exact .nil
  | cons hxy _ ih =>
    cases hbc with
    | cons hyz hrest => exact .cons (htr _ _ _ hxy hyz) (ih hrest)

theorem forall₂_refl_of {R : Photo → Photo → Prop} (h : ∀ x, R x x) :
    ∀ l : List Photo, List.Forall₂ R l l := by
  intro l
  induction l with
  | nil => exact .nil
  | cons a t ih => exact .cons (h a) ih

/-! ### Batch partition lemmas -/

theorem chunksF_nil (B fuel : Nat) : chunksF B fuel [] = [] := by
  cases fuel <;> rfl

theorem chunksF_cons (B fuel : Nat) (a : Photo) (t : List Photo) :
    chunksF B (fuel + 1) (a :: t) =
      (a :: t).take B :: chunksF B fuel ((a :: t).drop B) := rfl

theorem chunksF_ne_nil (B fuel : Nat) (l : List Photo) (hl : l ≠ []) :
    0 < fuel → chunksF B fuel l ≠ [] := by
  intro hf
  cases fuel with
  | zero => omega
  | succ f =>
    cases l with
    | nil => exact absurd rfl hl
    | cons a t => simp [chunksF_cons]

theorem chunksF_flatten (B : Nat) :
    ∀ (fuel : Nat) (l : List Photo), 0 < B → l.length ≤ fuel →
      (chunksF B fuel l).flatten = l := by
  intro fuel
  induction fuel with
  | zero =>
    intro l _ hl
    have : l = [] := List.length_eq_zero.mp (Nat.le_zero.mp hl)
    subst this; rfl
  | succ f ih =>
    intro l hB hl
    cases l with
    | nil => rfl
    | cons a t =>
      rw [chunksF_cons, List.flatten_cons,
        ih _ hB (by simp only [List.length_drop, List.length_cons] at hl ⊢; omega),
        List.take_append_drop]

theorem chunksF_length (B : Nat) :
    ∀ (fuel : Nat) (l : List Photo), 0 < B → l.length ≤ fuel →
      (chunksF B fuel l).length = (l.length + B - 1) / B := by
  intro fuel
  induction fuel with
  | zero =>
    intro l hB hl
    have h0 : l = [] := List.length_eq_zero.mp (Nat.le_zero.mp hl)
    subst h0
    simp [chunksF, Nat.div_eq_of_lt (show B - 1 < B by omega)]
  | succ f ih =>
    intro l hB hl
    cases l with
    | nil => simp [chunksF, Nat.div_eq_of_lt (show B - 1 < B by omega)]
    | cons a t =>
      rw [chunksF_cons]
      have hlen : ((a :: t).drop B).length ≤ f := by
        simp [List.length_drop] at hl ⊢; omega
      simp only [List.length_cons, ih _ hB hlen, List.length_drop]
      set n := t.length + 1 with hn
      have hn1 : 1 ≤ n := by omega
      rcases le_or_lt B n with hc | hc
      · have : n - B + B - 1 = n - 1 := by omega
        rw [this]
        have := Nat.add_div_right (n - 1) hB
        have heq : n - 1 + B = n + B - 1 := by omega
        rw [heq] at this
        omega
      · have hz : n - B = 0 := by omega
        rw [hz]
        have h1 : (0 + B - 1) / B = 0 := Nat.div_eq_of_lt (by omega)
        have h2 : (n + B - 1) / B = 1 :=
          Nat.div_eq_of_lt_le (by omega) (by omega)
        omega

theorem chunksF_sizes (B : Nat) :
    ∀ (fuel : Nat) (l : List Photo), 0 < B → l.length ≤ fuel →
      (∀ c ∈ (chunksF B fuel l).dropLast, c.length = B) ∧
      (∀ c, (chunksF B fuel l).getLast? = some c → c ≠ [] ∧ c.length ≤ B) := by
  intro fuel
  induction fuel with
  | zero =>
    intro l _ hl
    have h0 : l = [] := List.length_eq_zero.mp (Nat.le_zero.mp hl)
    subst h0
    simp [chunksF]
  | succ f ih =>
    intro l hB hl
    cases l with
    | nil => simp [chunksF]
    | cons a t =>
      rw [chunksF_cons]
      have hlen : ((a :: t).drop B).length ≤ f := by
        simp [List.length_drop] at hl ⊢; omega
      by_cases hd : (a :: t).drop B = []
      · rw [hd, chunksF_nil]
        constructor
        · simp
        · intro c hc
          simp only [List.getLast?_singleton, Option.some.injEq] at hc
          subst hc
          constructor
          · have : ((a :: t).take B).length = min B (a :: t).length := by
              simp [List.length_take]
            intro hnil
            rw [hnil] at this
            simp at this
            omega
          · simp [List.length_take]
      · have hrest : chunksF B f ((a :: t).drop B) ≠ [] :=
          chunksF_ne_nil B f _ hd (by
            have : 0 < ((a :: t).drop B).length := List.length_pos.mpr hd
            omega)
        obtain ⟨r, rs, hr⟩ := List.exists_cons_of_ne_nil hrest
        have hBlt : B < (a :: t).length := by
          by_contra hle
          exact hd (List.drop_eq_nil_of_le (by omega))
        rw [List.length_cons] at hBlt
        obtain ⟨ihd, ihl⟩ := ih ((a :: t).drop B) hB hlen
        rw [hr] at ihd ihl ⊢
        constructor
        · intro c hc
          simp only [List.dropLast_cons₂, List.mem_cons] at hc
          rcases hc with hc | hc
          · subst hc
            simp [List.length_take]
            omega
          · exact ihd c hc
        · intro c hc
          rw [List.getLast?_cons_cons] at hc
          exact ihl c hc

/-! ### Claim C5 -/

/-- C5: for any list of photos and positive batch size `B` (10 for scoring,
20 for grouping), the batch partition yields `ceil(N/B)` consecutive
non-overlapping slices in input order — their in-order concatenation is the
input itself — each of size `B` except possibly the last, which is non-empty
and no longer than `B`. -/
theorem batch_partition_spec (B : Nat) (l : List Photo) (hB : 0 < B) :
    (chunks B l).flatten = l ∧
    (chunks B l).length = (l.length + B - 1) / B ∧
    (∀ c ∈ (chunks B l).dropLast, c.length = B) ∧
    (∀ c, (chunks B l).getLast? = some c → c ≠ [] ∧ c.length ≤ B) := by
  refine ⟨chunksF_flatten B l.length l hB le_rfl,
    chunksF_length B l.length l hB le_rfl, ?_, ?_⟩
  · exact (chunksF_sizes B l.length l hB le_rfl).1
  · exact (chunksF_sizes B l.length l hB le_rfl).2

/-- Witness for C5 at the two batch sizes the services use, on a concrete
25-photo list. -/
theorem batch_partition_spec_witness :
    (0 < 10 ∧
      ((chunks 10 (List.range 25 |>.map fun i =>
        ⟨i, 1, "f", "o", "t", "h", 0, none, none, false, none, 0, 0⟩)).flatten =
        (List.range 25 |>.map fun i =>
          ⟨i, 1, "f", "o", "t", "h", 0, none, none, false, none, 0, 0⟩) ∧
      (chunks 10 (List.range 25 |>.map fun i =>
        ⟨i, 1, "f", "o", "t", "h", 0, none, none, false, none, 0, 0⟩)).length =
        ((List.range 25 |>.map fun i =>
          (⟨i, 1, "f", "o", "t", "h", 0, none, none, false, none, 0, 0⟩ : Photo)).length + 10 - 1) / 10 ∧
      (∀ c ∈ (chunks 10 (List.range 25 |>.map fun i =>
        ⟨i, 1, "f", "o", "t", "h", 0, none, none, false, none, 0, 0⟩)).dropLast, c.length = 10) ∧
      (∀ c, (chunks 10 (List.range 25 |>.map fun i =>
        ⟨i, 1, "f", "o", "t", "h", 0, none, none, false, none, 0, 0⟩)).getLast? = some c →
        c ≠ [] ∧ c.length ≤ 10))) ∧ 0 < 20 := by
  refine ⟨⟨by decide, batch_partition_spec 10 _ (by decide)⟩, by decide⟩

/-! ### Decimal semantics lemmas -/

theorem toQ_alignedMant (a b : JsNum) :
    (JsNum.alignedMant a b : ℚ) * (10 : ℚ) ^ (min a.exp b.exp) = a.toQ := by
  have hm : min a.exp b.exp ≤ a.exp := min_le_left _ _
  have hk : ((a.exp - min a.exp b.exp).toNat : ℤ) = a.exp - min a.exp b.exp :=
    Int.toNat_of_nonneg (by omega)
  unfold JsNum.alignedMant JsNum.toQ
  push_cast
  rw [← zpow_natCast (10 : ℚ) (a.exp - min a.exp b.exp).toNat, hk, mul_assoc,
    ← zpow_add₀ (by norm_num : (10 : ℚ) ≠ 0)]
  have hexp : a.exp - min a.exp b.exp + min a.exp b.exp = a.exp := by omega
  rw [hexp]

theorem beq_iff_toQ (a b : JsNum) : a.beq b = true ↔ a.toQ = b.toQ := by
  have h1 := toQ_alignedMant a b
  have h2 := toQ_alignedMant b a
  rw [min_comm b.exp a.exp] at h2
  have hpow : (10 : ℚ) ^ (min a.exp b.exp) ≠ 0 := zpow_ne_zero _ (by norm_num)
  unfold JsNum.beq
  rw [beq_iff_eq]
  constructor
  · intro h
    rw [← h1, ← h2, h]
  · intro h
    have heq : (JsNum.alignedMant a b : ℚ) * (10 : ℚ) ^ (min a.exp b.exp) =
        (JsNum.alignedMant b a : ℚ) * (10 : ℚ) ^ (min a.exp b.exp) := by
      rw [h1, h2, h]
    exact_mod_cast mul_right_cancel₀ hpow heq

theorem toQ_ofInt (n : Int) : (JsNum.ofInt n).toQ = n := by
  simp [JsNum.ofInt, JsNum.toQ]

theorem numEqNat_iff (d : JsNum) (n : Nat) : numEqNat d n = true ↔ d.toQ = n := by
  rw [numEqNat, beq_iff_toQ, toQ_ofInt]
  norm_cast

theorem numEqNat_inj {d : JsNum} {n m : Nat}
    (hn : numEqNat d n = true) (hm : numEqNat d m = true) : n = m := by
  rw [numEqNat_iff] at hn hm
  exact_mod_cast hn.symm.trans hm

theorem toQ_add (a b : JsNum) : (a.add b).toQ = a.toQ + b.toQ := by
  have h1 := toQ_alignedMant a b
  have h2 := toQ_alignedMant b a
  rw [min_comm b.exp a.exp] at h2
  unfold JsNum.add
  rw [← h1, ← h2]
  unfold JsNum.toQ
  push_cast
  ring

theorem floorD_toQ (d : JsNum) : d.floorD = ⌊d.toQ⌋ := by
  unfold JsNum.floorD JsNum.toQ
  by_cases h : 0 ≤ d.exp
  · rw [if_pos h]
    have : ((d.mant : ℚ)) * 10 ^ d.exp = ((d.mant * 10 ^ d.exp.toNat : ℤ) : ℚ) := by
      push_cast
      rw [← zpow_natCast (10 : ℚ) d.exp.toNat, Int.toNat_of_nonneg h]
    rw [this, Int.floor_intCast]
  · rw [if_neg h]
    have hk : (10 : ℚ) ^ d.exp = ((10 ^ (-d.exp).toNat : ℕ) : ℚ)⁻¹ := by
      push_cast
      rw [← zpow_natCast (10 : ℚ) (-d.exp).toNat, Int.toNat_of_nonneg (by omega),
        ← zpow_neg]
      congr 1
      omega
    have hfl := Rat.floor_intCast_div_natCast d.mant (10 ^ (-d.exp).toNat)
    have hval : (d.mant : ℚ) * 10 ^ d.exp =
        (d.mant : ℚ) / ((10 ^ (-d.exp).toNat : ℕ) : ℚ) := by
      rw [hk, div_eq_mul_inv]
    rw [hval, hfl, Int.fdiv_eq_ediv _ (by positivity)]
    norm_cast

theorem toQ_shift (d : JsNum) : (JsNum.mk d.mant (d.exp + 1)).toQ = d.toQ * 10 := by
  unfold JsNum.toQ
  rw [zpow_add₀ (by norm_num : (10 : ℚ) ≠ 0)]
  push_cast
  ring

theorem toQ_half : (JsNum.mk 5 (-1)).toQ = 1 / 2 := by
  unfold JsNum.toQ
  norm_num

theorem jsRound_eq (d : JsNum) : d.jsRound = ⌊d.toQ + 1 / 2⌋ := by
  unfold JsNum.jsRound
  rw [floorD_toQ, toQ_add, toQ_half]

theorem toQ_round1 (d : JsNum) :
    d.round1.toQ = (⌊d.toQ * 10 + 1 / 2⌋ : ℚ) / 10 := by
  have h := jsRound_eq ⟨d.mant, d.exp + 1⟩
  rw [toQ_shift] at h
  show (JsNum.mk ((JsNum.mk d.mant (d.exp + 1)).jsRound) (-1)).toQ = _
  rw [h]
  unfold JsNum.toQ
  rw [zpow_neg_one, ← div_eq_mul_inv]

/-- One-decimal rounding keeps a value inside `[0, 10]` and lands on a
multiple of one tenth. -/
theorem round1_range {d : JsNum} (h0 : 0 ≤ d.toQ) (h10 : d.toQ ≤ 10) :
    0 ≤ d.round1.toQ ∧ d.round1.toQ ≤ 10 := by
  rw [toQ_round1]
  have hlow : (0 : ℤ) ≤ ⌊d.toQ * 10 + 1 / 2⌋ := by
    apply Int.floor_nonneg.mpr
    nlinarith
  have hhigh : ⌊d.toQ * 10 + 1 / 2⌋ < 101 := by
    rw [Int.floor_lt]
    push_cast
    nlinarith
  constructor
  · apply div_nonneg _ (by norm_num)
    exact_mod_cast hlow
  · rw [div_le_iff₀ (by norm_num : (0 : ℚ) < 10)]
    have h100 : ⌊d.toQ * 10 + 1 / 2⌋ ≤ 100 := by omega
    calc ((⌊d.toQ * 10 + 1 / 2⌋ : ℚ)) ≤ (100 : ℚ) := by exact_mod_cast h100
      _ ≤ 10 * 10 := by norm_num

/-- Every rounded score is an integer number of tenths. -/
theorem round1_tenth (d : JsNum) : ∃ k : ℤ, d.round1.toQ = (k : ℚ) / 10 :=
  ⟨⌊d.toQ * 10 + 1 / 2⌋, toQ_round1 d⟩

/-! ### Frame relations -/

theorem scoreFrame_refl (p : Photo) : ScoreFrame p p := by
  unfold ScoreFrame
  exact ⟨rfl, rfl, rfl, rfl, rfl, rfl, rfl, rfl, rfl, rfl⟩

theorem scoreFrame_trans {x y z : Photo} (h1 : ScoreFrame x y) (h2 : ScoreFrame y z) :
    ScoreFrame x z := by
  obtain ⟨a1, a2, a3, a4, a5, a6, a7, a8, a9, a10⟩ := h1
  obtain ⟨b1, b2, b3, b4, b5, b6, b7, b8, b9, b10⟩ := h2
  exact ⟨b1.trans a1, b2.trans a2, b3.trans a3, b4.trans a4, b5.trans a5,
    b6.trans a6, b7.trans a7, b8.trans a8, b9.trans a9, b10.trans a10⟩

theorem groupFrame_refl (p : Photo) : GroupFrame p p := by
  unfold GroupFrame
  exact ⟨rfl, rfl, rfl, rfl, rfl, rfl, rfl, rfl, rfl, rfl, rfl, rfl⟩

theorem groupFrame_trans {x y z : Photo} (h1 : GroupFrame x y) (h2 : GroupFrame y z) :
    GroupFrame x z := by
  obtain ⟨a1, a2, a3, a4, a5, a6, a7, a8, a9, a10, a11, a12⟩ := h1
  obtain ⟨b1, b2, b3, b4, b5, b6, b7, b8, b9, b10, b11, b12⟩ := h2
  exact ⟨b1.trans a1, b2.trans a2, b3.trans a3, b4.trans a4, b5.trans a5,
    b6.trans a6, b7.trans a7, b8.trans a8, b9.trans a9, b10.trans a10,
    b11.trans a11, b12.trans a12⟩

/-! ### Scoring chain lemmas

`StepRel env photos P R` says that relation `R` covers one
`applyEvaluations` pass over any evaluation list whose members satisfy `P`;
such an `R` then covers the whole retry loop and batch loop whenever the
environment only ever replies with `P`-respecting evaluations. -/

theorem applyEvaluations_rel (env : VisionEnv) (photos : List Photo)
    (P : Json → Prop) (R : Photo → Photo → Prop) (hrefl : ∀ x, R x x)
    (htr : ∀ x y z, R x y → R y z → R x z)
    (hstep : ∀ (db : List Photo) (e : Json) (pid : Option Json), P e →
      pid = getMember e "photo_id" →
      (∃ ph, photos.find? (fun p => jsEqNat pid p.id) = some ph) →
      ∀ comment, List.Forall₂ R db (updateScore db
        ((toNumber (getMember e "score")).map JsNum.round1) comment env.now pid)) :
    StepRel env photos P R := by
  intro db evals hP
  induction evals generalizing db with
  | nil => exact forall₂_refl_of hrefl db
  | cons e rest ih =>
    have hPe : P e := hP e (by simp)
    have hPrest : ∀ x ∈ rest, P x := fun x hx => hP x (by simp [hx])
    rw [applyEvaluations]
    by_cases hnull : e.isNull
    · simpa [hnull] using forall₂_refl_of hrefl db
    · simp only [hnull, Bool.false_eq_true, if_false]
      cases hfind : photos.find? (fun p => jsEqNat (getMember e "photo_id") p.id) with
      | none => simpa [hfind] using ih db hPrest
      | some ph =>
        simp only [hfind]
        cases hbind : bindData (getMember e "comment") with
        | none => simpa [hbind] using forall₂_refl_of hrefl db
        | some comment =>
          simp only [hbind]
          exact forall₂_trans_of htr
            (hstep db _ _ hPe rfl ⟨ph, hfind⟩ _) (ih _ hPrest)

theorem analyzeBatchF_rel (env : VisionEnv) (photos : List Photo)
    (P : Json → Prop) (R : Photo → Photo → Prop) (hrefl : ∀ x, R x x)
    (henv : ∀ n t, env.svc n = .replyText t → ∀ e ∈ evaluationsOf t, P e)
    (hstep : StepRel env photos P R) :
    ∀ (fuel : Nat) (db : List Photo) (idx retryCount : Nat),
      List.Forall₂ R db (analyzeBatchF env photos fuel db idx retryCount).1 := by
  intro fuel
  induction fuel with
  | zero => intro db idx rc; exact forall₂_refl_of hrefl db
  | succ f ih =>
    intro db idx rc
    rw [analyzeBatchF]
    split
    · exact forall₂_refl_of hrefl db
    · cases hsvc : env.svc idx with
      | replyText t =>
        dsimp only
        cases heqev : evaluationsList (ClaudeVisionService.parseResponse t) with
        | error u => exact forall₂_refl_of hrefl db
        | ok evals =>
          have hPe : ∀ e ∈ evals, P e := by
            have h := henv idx t hsvc
            rw [evaluationsOf, heqev] at h
            exact h
          simpa using hstep db evals hPe
      | replyNonText => exact forall₂_refl_of hrefl db
      | replyEmpty => exact forall₂_refl_of hrefl db
      | failure => exact forall₂_refl_of hrefl db
      | rateLimit =>
        dsimp only
        split
        · simpa using ih db (idx + 1) (rc + 1)
        · exact forall₂_refl_of hrefl db

theorem scoreLoop_rel (env : VisionEnv)
    (P : Json → Prop) (R : Photo → Photo → Prop) (hrefl : ∀ x, R x x)
    (htr : ∀ x y z, R x y → R y z → R x z)
    (henv : ∀ n t, env.svc n = .replyText t → ∀ e ∈ evaluationsOf t, P e)
    (hstep : ∀ b ∈ bs, StepRel env b P R) :
    ∀ (db : List Photo) (idx processed : Nat),
      List.Forall₂ R db (scoreLoop env bs db idx processed).db := by
  induction bs with
  | nil => intro db idx processed; exact forall₂_refl_of hrefl db
  | cons b bt ih =>
    intro db idx processed
    rw [scoreLoop]
    cases hab : ClaudeVisionService.analyzeBatch env db b idx with
    | mk db' rest =>
      obtain ⟨r, ds, idx'⟩ := rest
      have h1 : List.Forall₂ R db db' := by
        have := analyzeBatchF_rel env b P R hrefl henv (hstep b (by simp)) 4 db idx 0
        rw [show analyzeBatchF env b 4 db idx 0 =
          ClaudeVisionService.analyzeBatch env db b idx from rfl, hab] at this
        exact this
      have hstep' : ∀ c ∈ bt, StepRel env c P R := fun c hc => hstep c (by simp [hc])
      cases r with
      | ok u =>
        simp only []
        exact forall₂_trans_of htr h1 (ih hstep' db' idx' (processed + b.length))
      | error u =>
        simp only []
        exact forall₂_trans_of htr h1 (ih hstep' db' idx' processed)

theorem analyzePhotos_rel (env : VisionEnv) (db : List Photo) (projectId : Nat)
    (P : Json → Prop) (R : Photo → Photo → Prop) (hrefl : ∀ x, R x x)
    (htr : ∀ x y z, R x y → R y z → R x z)
    (henv : ∀ n t, env.svc n = .replyText t → ∀ e ∈ evaluationsOf t, P e)
    (hstep : ∀ b, StepRel env b P R) :
    List.Forall₂ R db (ClaudeVisionService.analyzePhotos env db projectId).db := by
  rw [ClaudeVisionService.analyzePhotos]
  by_cases h : (sortById (db.filter fun p =>
      p.project_id == projectId && p.score.isNone)).length = 0
  · simpa [h] using forall₂_refl_of hrefl db
  · simpa [h] using scoreLoop_rel env P R hrefl htr henv (fun b _ => hstep b) db 0 0

/-! ### Claim C9 -/

theorem forall₂_imp_mem {R S : Photo → Photo → Prop} :
    ∀ {l₁ l₂ : List Photo}, List.Forall₂ R l₁ l₂ →
      (∀ a ∈ l₁, ∀ b, R a b → S a b) → List.Forall₂ S l₁ l₂ := by
  intro l₁ l₂ h hmem
  induction h with
  | nil => exact .nil
  | cons hab _ ih =>
    exact .cons (hmem _ (by simp) _ hab) (ih fun a ha b hr => hmem a (by simp [ha]) b hr)

theorem jsEqNat_inj {v : Option Json} {n m : Nat}
    (hn : jsEqNat v n = true) (hm : jsEqNat v m = true) : n = m := by
  cases v with
  | none => simp [jsEqNat] at hn
  | some j =>
    cases j with
    | jnum d => exact numEqNat_inj hn hm
    | jnull => simp [jsEqNat] at hn
    | jbool b => simp [jsEqNat] at hn
    | jstr s => simp [jsEqNat] at hn
    | jarr l => simp [jsEqNat] at hn
    | jobj fs => simp [jsEqNat] at hn

/-- An `updateScore` whose id came from a photo found in the batch does not
change any row whose id lies outside the batch. -/
theorem updateScore_step_untouched (env : VisionEnv) (photos : List Photo) :
    StepRel env photos (fun _ => True)
      (fun p q => p.id ∉ photos.map Photo.id → q = p) := by
  apply applyEvaluations_rel env photos _ _ (fun x _ => rfl)
  · intro x y z hxy hyz hx
    rw [hyz (by rw [hxy hx]; exact hx), hxy hx]
  · intro db e pid _ hpid hfind comment
    obtain ⟨ph, hph⟩ := hfind
    apply forall₂_map_of
    intro x hx
    have htrue : jsEqNat pid ph.id = true := by
      have := List.find?_some hph
      simpa using this
    have hmem : ph ∈ photos := List.mem_of_find?_eq_some hph
    by_cases hxid : jsEqNat pid x.id
    · exfalso
      exact hx (by
        rw [jsEqNat_inj hxid htrue]
        exact List.mem_map_of_mem Photo.id hmem)
    · simp [hxid]

/-- C9: a scoring batch call (including its retries) never modifies a row
that is not a member of the batch that produced the response: provided the
batch was drawn from the store and the store's ids are unique (its primary
key), every row outside the batch is returned unchanged. -/
theorem scoring_never_writes_outside_batch (env : VisionEnv)
    (db batch : List Photo) (idx : Nat)
    (hsub : ∀ p ∈ batch, p ∈ db) (hnodup : (db.map Photo.id).Nodup) :
    List.Forall₂ (fun p q => p ∉ batch → q = p) db
      (ClaudeVisionService.analyzeBatch env db batch idx).1 := by
  have base :
      List.Forall₂ (fun p q => p.id ∉ batch.map Photo.id → q = p) db
        (ClaudeVisionService.analyzeBatch env db batch idx).1 :=
    analyzeBatchF_rel env batch (fun _ => True) _ (fun x _ => rfl)
      (fun n t _ e _ => trivial)
      (updateScore_step_untouched env batch) 4 db idx 0
  apply forall₂_imp_mem base
  intro p hp q hr hpb
  apply hr
  intro hid
  obtain ⟨b, hb, hbid⟩ := List.mem_map.mp hid
  have : b = p := List.inj_on_of_nodup_map hnodup (hsub b hb) hp hbid
  exact hpb (this ▸ hb)

/-- Witness for C9: a store of two photos, a one-photo batch, a service that
answers with an evaluation for the other photo; the theorem applies and the
row outside the batch is untouched. -/
theorem scoring_never_writes_outside_batch_witness :
    ((∀ p ∈ [(⟨1, 1, "a", "b", "t1", "h1", 0, none, none, false, none, 0, 0⟩ : Photo)],
        p ∈ [(⟨1, 1, "a", "b", "t1", "h1", 0, none, none, false, none, 0, 0⟩ : Photo),
             ⟨2, 1, "c", "d", "t2", "h2", 0, none, none, false, none, 0, 0⟩]) ∧
      (([(⟨1, 1, "a", "b", "t1", "h1", 0, none, none, false, none, 0, 0⟩ : Photo),
         ⟨2, 1, "c", "d", "t2", "h2", 0, none, none, false, none, 0, 0⟩].map Photo.id).Nodup)) ∧
    List.Forall₂ (fun p q => p ∉ [(⟨1, 1, "a", "b", "t1", "h1", 0, none, none, false, none, 0, 0⟩ : Photo)] → q = p)
      [(⟨1, 1, "a", "b", "t1", "h1", 0, none, none, false, none, 0, 0⟩ : Photo),
       ⟨2, 1, "c", "d", "t2", "h2", 0, none, none, false, none, 0, 0⟩]
      (ClaudeVisionService.analyzeBatch
        ⟨fun _ => .replyText "\x7b\"evaluations\":[\x7b\"photo_id\":2,\"score\":5,\"comment\":\"x\"\x7d]\x7d",
          fun _ => some "img", 9⟩
        [(⟨1, 1, "a", "b", "t1", "h1", 0, none, none, false, none, 0, 0⟩ : Photo),
         ⟨2, 1, "c", "d", "t2", "h2", 0, none, none, false, none, 0, 0⟩]
        [(⟨1, 1, "a", "b", "t1", "h1", 0, none, none, false, none, 0, 0⟩ : Photo)] 0).1 :=
  ⟨⟨by decide, by decide⟩,
    scoring_never_writes_outside_batch _ _ _ 0 (by decide) (by decide)⟩

/-! ### Claim C4 -/

theorem sumOkLog_acc (log : List (Nat × Bool)) :
    ∀ a : Nat, log.foldl (fun a e => a + if e.2 then e.1 else 0) a = a + sumOkLog log := by
  induction log with
  | nil => intro a; simp [sumOkLog]
  | cons e t ih =>
    intro a
    rw [sumOkLog, List.foldl_cons, List.foldl_cons, ih, ih]
    omega

theorem sumOkLog_cons (e : Nat × Bool) (log : List (Nat × Bool)) :
    sumOkLog (e :: log) = (if e.2 then e.1 else 0) + sumOkLog log := by
  rw [sumOkLog, List.foldl_cons, sumOkLog_acc]
  omega

theorem scoreLoop_ret (env : VisionEnv) (bs : List (List Photo)) :
    ∀ (db : List Photo) (idx processed : Nat),
      (scoreLoop env bs db idx processed).ret =
        processed + sumOkLog (scoreLoop env bs db idx processed).batchLog := by
  induction bs with
  | nil => intro db idx processed; simp [scoreLoop, sumOkLog]
  | cons b bt ih =>
    intro db idx processed
    rw [scoreLoop]
    cases hab : ClaudeVisionService.analyzeBatch env db b idx with
    | mk db' rest =>
      obtain ⟨r, ds, idx'⟩ := rest
      cases r with
      | ok u =>
        simp only [sumOkLog_cons, if_true]
        rw [ih db' idx' (processed + b.length)]
        omega
      | error u =>
        simp only [sumOkLog_cons, Bool.false_eq_true, if_false]
        rw [ih db' idx' processed]
        omega

/-- C4 (amended): the number `analyzePhotos` returns is the total size of
the batches that completed without throwing — `processed` grows by the whole
batch length whenever `analyzeBatch` returns, regardless of how many
evaluations were applied — not the number of photos whose score was actually
written. -/
theorem analyze_return_counts_ok_batches (env : VisionEnv) (db : List Photo)
    (projectId : Nat) :
    (ClaudeVisionService.analyzePhotos env db projectId).ret =
      sumOkLog (ClaudeVisionService.analyzePhotos env db projectId).batchLog := by
  rw [ClaudeVisionService.analyzePhotos]
  by_cases h : (sortById (db.filter fun p =>
      p.project_id == projectId && p.score.isNone)).length = 0
  · simp [h, sumOkLog]
  · simp only [h, if_false]
    rw [scoreLoop_ret env _ db 0 0]
    omega

/-- Counterexample to C4 as stated: one unscored photo, a service response
that parses to no usable JSON, hence an empty evaluation list: the batch
completes without error, no score is ever written, yet `analyzePhotos`
returns 1. -/
theorem analyze_return_overcounts :
    (ClaudeVisionService.analyzePhotos
        ⟨fun _ => .replyText "garbage", fun _ => some "img", 5⟩
        [⟨1, 1, "a.jpg", "o", "t", "h", 3, none, none, false, none, 0, 0⟩] 1).ret = 1 ∧
    ((ClaudeVisionService.analyzePhotos
        ⟨fun _ => .replyText "garbage", fun _ => some "img", 5⟩
        [⟨1, 1, "a.jpg", "o", "t", "h", 3, none, none, false, none, 0, 0⟩] 1).db.filter
      fun p => p.score.isSome).length = 0 := by
  constructor
  · decide
  · decide

/-! ### Claim C7 -/

/-- C7: for a single batch call (scoring or grouping) whose content is
non-empty, a rate-limit signal makes the call wait `attemptIndex * 5`
seconds (5 s then 10 s then 15 s) and retry, up to 3 retries (4 attempts):
a service that rate-limits twice then succeeds incurs exactly the delays
5 s and 10 s and the call succeeds; a service that always rate-limits
incurs exactly three delays and fails terminally after the fourth attempt;
any non-rate-limit error propagates immediately with no delay and no
retry. -/
theorem retry_governor_spec (env : VisionEnv) (db batch : List Photo)
    (idx nextGid : Nat) (hc : (contentPhotos env batch).isEmpty = false) :
    (∀ t db' evals,
        env.svc idx = .rateLimit → env.svc (idx + 1) = .rateLimit →
        env.svc (idx + 2) = .replyText t →
        evaluationsList (ClaudeVisionService.parseResponse t) = .ok evals →
        applyEvaluations env.now db batch evals = (db', .ok ()) →
        ClaudeVisionService.analyzeBatch env db batch idx =
          (db', .ok (), [5000, 10000], idx + 3)) ∧
    ((∀ n, env.svc n = .rateLimit) →
      ClaudeVisionService.analyzeBatch env db batch idx =
        (db, .error (), [5000, 10000, 15000], idx + 4)) ∧
    (env.svc idx = .failure →
      ClaudeVisionService.analyzeBatch env db batch idx =
        (db, .error (), [], idx + 1)) ∧
    (∀ t db' gid' gs,
        env.svc idx = .rateLimit → env.svc (idx + 1) = .rateLimit →
        env.svc (idx + 2) = .replyText t →
        groupsList (SimilarityGroupingService.parseResponse t) = .ok gs →
        SimilarityGroupingService.assignGroups batch gs db nextGid =
          (db', gid', .ok ()) →
        SimilarityGroupingService.processBatch env db batch nextGid idx =
          (db', gid', .ok (), [5000, 10000], idx + 3)) ∧
    ((∀ n, env.svc n = .rateLimit) →
      SimilarityGroupingService.processBatch env db batch nextGid idx =
        (db, nextGid, .error (), [5000, 10000, 15000], idx + 4)) ∧
    (env.svc idx = .failure →
      SimilarityGroupingService.processBatch env db batch nextGid idx =
        (db, nextGid, .error (), [], idx + 1)) := by
  refine ⟨?_, ?_, ?_, ?_, ?_, ?_⟩
  · intro t db' evals h0 h1 h2 hev happ
    have h2' : env.svc (idx + 1 + 1) = .replyText t := h2
    show analyzeBatchF env batch 4 db idx 0 = _
    simp only [analyzeBatchF, hc, h0, h1, h2', hev, happ, Bool.false_eq_true,
      if_false, if_true]
    norm_num
  · intro hr
    show analyzeBatchF env batch 4 db idx 0 = _
    simp only [analyzeBatchF, hc, hr, Bool.false_eq_true, if_false,
      if_true]
    norm_num
  · intro h0
    show analyzeBatchF env batch 4 db idx 0 = _
    simp only [analyzeBatchF, hc, h0, Bool.false_eq_true, if_false]
  · intro t db' gid' gs h0 h1 h2 hgs hassign
    have h2' : env.svc (idx + 1 + 1) = .replyText t := h2
    show processBatchF env batch 4 db nextGid idx 0 = _
    simp only [processBatchF, hc, h0, h1, h2', hgs, hassign, Bool.false_eq_true,
      if_false, if_true]
    norm_num
  · intro hr
    show processBatchF env batch 4 db nextGid idx 0 = _
    simp only [processBatchF, hc, hr, Bool.false_eq_true, if_false,
      if_true]
    norm_num
  · intro h0
    show processBatchF env batch 4 db nextGid idx 0 = _
    simp only [processBatchF, hc, h0, Bool.false_eq_true, if_false]

/-- Witness for C7: three concrete stub services — rate-limit twice then a
(non-JSON) success, always rate-limit, and immediate failure — exercised
through both the scoring and the grouping call. -/
theorem retry_governor_spec_witness :
    ((contentPhotos ⟨fun n => if n ≤ 1 then .rateLimit else .replyText "no json",
        fun _ => some "img", 7⟩
        [⟨1, 1, "a", "o", "t", "h", 0, none, none, false, none, 0, 0⟩]).isEmpty = false ∧
      ClaudeVisionService.analyzeBatch
        ⟨fun n => if n ≤ 1 then .rateLimit else .replyText "no json",
          fun _ => some "img", 7⟩
        [⟨1, 1, "a", "o", "t", "h", 0, none, none, false, none, 0, 0⟩]
        [⟨1, 1, "a", "o", "t", "h", 0, none, none, false, none, 0, 0⟩] 0 =
        ([⟨1, 1, "a", "o", "t", "h", 0, none, none, false, none, 0, 0⟩],
          .ok (), [5000, 10000], 3) ∧
      SimilarityGroupingService.processBatch
        ⟨fun n => if n ≤ 1 then .rateLimit else .replyText "no json",
          fun _ => some "img", 7⟩
        [⟨1, 1, "a", "o", "t", "h", 0, none, none, false, none, 0, 0⟩]
        [⟨1, 1, "a", "o", "t", "h", 0, none, none, false, none, 0, 0⟩] 1 0 =
        ([⟨1, 1, "a", "o", "t", "h", 0, none, none, false, none, 0, 0⟩],
          1, .ok (), [5000, 10000], 3)) ∧
    (ClaudeVisionService.analyzeBatch
        ⟨fun _ => .rateLimit, fun _ => some "img", 7⟩
        [⟨1, 1, "a", "o", "t", "h", 0, none, none, false, none, 0, 0⟩]
        [⟨1, 1, "a", "o", "t", "h", 0, none, none, false, none, 0, 0⟩] 0 =
        ([⟨1, 1, "a", "o", "t", "h", 0, none, none, false, none, 0, 0⟩],
          .error (), [5000, 10000, 15000], 4)) ∧
    (ClaudeVisionService.analyzeBatch
        ⟨fun _ => .failure, fun _ => some "img", 7⟩
        [⟨1, 1, "a", "o", "t", "h", 0, none, none, false, none, 0, 0⟩]
        [⟨1, 1, "a", "o", "t", "h", 0, none, none, false, none, 0, 0⟩] 0 =
        ([⟨1, 1, "a", "o", "t", "h", 0, none, none, false, none, 0, 0⟩],
          .error (), [], 1)) := by
  refine ⟨⟨by decide, ?_, ?_⟩, ?_, ?_⟩
  · exact (retry_governor_spec _ _ _ 0 1 (by decide)).1 "no json" _ [] rfl rfl rfl rfl rfl
  · exact (retry_governor_spec _ _ _ 0 1 (by decide)).2.2.2.1 "no json" _ 1 [] rfl rfl rfl rfl rfl
  · exact (retry_governor_spec _ _ _ 0 1 (by decide)).2.1 fun n => rfl
  · exact (retry_governor_spec _ _ _ 0 1 (by decide)).2.2.1 rfl

/-! ### Grouping chain lemmas -/

theorem foldl_setGroupId_rel (R : Photo → Photo → Prop) (hrefl : ∀ x, R x x)
    (htr : ∀ x y z, R x y → R y z → R x z) (gid : Nat) :
    ∀ (ms : List Photo) (db : List Photo),
      (∀ p ∈ ms, ∀ db₂ : List Photo, List.Forall₂ R db₂ (setGroupId db₂ gid p.id)) →
      List.Forall₂ R db (ms.foldl (fun acc p => setGroupId acc gid p.id) db) := by
  intro ms
  induction ms with
  | nil => intro db _; exact forall₂_refl_of hrefl db
  | cons p pt ih =>
    intro db hset
    rw [List.foldl_cons]
    exact forall₂_trans_of htr (hset p (by simp) db)
      (ih _ fun q hq db₂ => hset q (by simp [hq]) db₂)

theorem matchedOf_subset (batch : List Photo) (rep : PidsRep) :
    ∀ p ∈ matchedOf batch rep, p ∈ batch := by
  intro p hp
  cases rep with
  | list l => exact List.mem_of_mem_filter hp
  | str s => exact List.mem_of_mem_filter hp
  | bad => cases hp

theorem assignGroups_rel (R : Photo → Photo → Prop) (hrefl : ∀ x, R x x)
    (htr : ∀ x y z, R x y → R y z → R x z) (batch : List Photo)
    (hset : ∀ (gid : Nat) (p : Photo), p ∈ batch →
      ∀ db₂ : List Photo, List.Forall₂ R db₂ (setGroupId db₂ gid p.id)) :
    ∀ (gs : List Json) (db : List Photo) (nextGid : Nat),
      List.Forall₂ R db (SimilarityGroupingService.assignGroups batch gs db nextGid).1 := by
  intro gs
  induction gs with
  | nil => intro db nextGid; exact forall₂_refl_of hrefl db
  | cons g gt ih =>
    intro db nextGid
    rw [SimilarityGroupingService.assignGroups]
    split
    · exact forall₂_refl_of hrefl db
    · dsimp only
      split
      · exact ih db nextGid
      · split
        · exact forall₂_refl_of hrefl db
        · split
          · exact ih db nextGid
          · exact forall₂_trans_of htr
              (foldl_setGroupId_rel R hrefl htr nextGid _ db
                fun p hp db₂ => hset nextGid p (matchedOf_subset batch _ p hp) db₂)
              (ih _ (nextGid + 1))

theorem processBatchF_rel (env : VisionEnv) (photos : List Photo)
    (R : Photo → Photo → Prop) (hrefl : ∀ x, R x x)
    (htr : ∀ x y z, R x y → R y z → R x z)
    (hset : ∀ (gid : Nat) (p : Photo), p ∈ photos →
      ∀ db₂ : List Photo, List.Forall₂ R db₂ (setGroupId db₂ gid p.id)) :
    ∀ (fuel : Nat) (db : List Photo) (nextGid idx retryCount : Nat),
      List.Forall₂ R db (processBatchF env photos fuel db nextGid idx retryCount).1 := by
  intro fuel
  induction fuel with
  | zero => intro db nextGid idx rc; exact forall₂_refl_of hrefl db
  | succ f ih =>
    intro db nextGid idx rc
    rw [processBatchF]
    split
    · exact forall₂_refl_of hrefl db
    · split
      · split
        · exact forall₂_refl_of hrefl db
        · simpa using assignGroups_rel R hrefl htr photos hset _ db nextGid
      · exact forall₂_refl_of hrefl db
      · exact forall₂_refl_of hrefl db
      · exact forall₂_refl_of hrefl db
      · split
        · simpa using ih db nextGid (idx + 1) (rc + 1)
        · exact forall₂_refl_of hrefl db

theorem groupLoop_rel (env : VisionEnv) (R : Photo → Photo → Prop)
    (hrefl : ∀ x, R x x) (htr : ∀ x y z, R x y → R y z → R x z) :
    ∀ (bs : List (List Photo)),
      (∀ b ∈ bs, ∀ (gid : Nat) (p : Photo), p ∈ b →
        ∀ db₂ : List Photo, List.Forall₂ R db₂ (setGroupId db₂ gid p.id)) →
      ∀ (db : List Photo) (nextGid idx : Nat),
        List.Forall₂ R db (groupLoop env bs db nextGid idx).1 := by
  intro bs
  induction bs with
  | nil => intro _ db nextGid idx; exact forall₂_refl_of hrefl db
  | cons b bt ih =>
    intro hset db nextGid idx
    rw [groupLoop]
    split
    · exact ih (fun c hc => hset c (by simp [hc])) db nextGid idx
    · cases hpb : SimilarityGroupingService.processBatch env db b nextGid idx with
      | mk db' rest =>
        obtain ⟨gid', r, ds, idx'⟩ := rest
        have h1 : List.Forall₂ R db db' := by
          have := processBatchF_rel env b R hrefl htr
            (fun gid p hp db₂ => hset b (by simp) gid p hp db₂) 4 db nextGid idx 0
          rw [show processBatchF env b 4 db nextGid idx 0 =
            SimilarityGroupingService.processBatch env db b nextGid idx from rfl,
            hpb] at this
          exact this
        exact forall₂_trans_of htr h1
          (ih (fun c hc => hset c (by simp [hc])) db' gid' idx')

theorem groupPhotos_rel (env : VisionEnv) (db : List Photo) (projectId : Nat)
    (R : Photo → Photo → Prop) (hrefl : ∀ x, R x x)
    (htr : ∀ x y z, R x y → R y z → R x z)
    (hclear : ∀ db₂ : List Photo, List.Forall₂ R db₂ (clearGroups db₂ projectId))
    (hset : ∀ (gid : Nat) (p : Photo),
      ∀ db₂ : List Photo, List.Forall₂ R db₂ (setGroupId db₂ gid p.id)) :
    List.Forall₂ R db (SimilarityGroupingService.groupPhotos env db projectId).1 := by
  rw [SimilarityGroupingService.groupPhotos]
  split
  · exact hclear db
  · refine forall₂_trans_of htr (hclear db) ?_
    cases hgl : groupLoop env
        (chunks 20 (sortById ((clearGroups db projectId).filter
          fun p => p.project_id == projectId)))
        (clearGroups db projectId) 1 0 with
    | mk db' rest =>
      have h := groupLoop_rel env R hrefl htr
        (chunks 20 (sortById ((clearGroups db projectId).filter
          fun p => p.project_id == projectId)))
        (fun b hb gid p hp db₂ => hset gid p db₂) (clearGroups db projectId) 1 0
      rw [hgl] at h
      simpa [hgl] using h

/-! ### Claim C10 -/

theorem updateScore_frame (db : List Photo) (score : Option JsNum)
    (comment : Option SqlData) (now : Nat) (pid : Option Json) :
    List.Forall₂ ScoreFrame db (updateScore db score comment now pid) := by
  apply forall₂_map_of
  intro x
  by_cases h : jsEqNat pid x.id
  · simp only [updateScore, h, if_true]
    exact ⟨rfl, rfl, rfl, rfl, rfl, rfl, rfl, rfl, rfl, rfl⟩
  · simp only [h]
    exact scoreFrame_refl x

theorem setGroupId_frame (db : List Photo) (gid phId : Nat) :
    List.Forall₂ GroupFrame db (setGroupId db gid phId) := by
  apply forall₂_map_of
  intro x
  by_cases h : x.id == phId
  · simp only [setGroupId, h, if_true]
    exact ⟨rfl, rfl, rfl, rfl, rfl, rfl, rfl, rfl, rfl, rfl, rfl, rfl⟩
  · simp only [setGroupId, h]
    exact groupFrame_refl x

theorem clearGroups_frame (db : List Photo) (projectId : Nat) :
    List.Forall₂ GroupFrame db (clearGroups db projectId) := by
  apply forall₂_map_of
  intro x
  by_cases h : x.project_id == projectId
  · simp only [clearGroups, h, if_true]
    exact ⟨rfl, rfl, rfl, rfl, rfl, rfl, rfl, rfl, rfl, rfl, rfl, rfl⟩
  · simp only [clearGroups, h]
    exact groupFrame_refl x

/-- C10: a scoring run mutates only the `score`, `ai_comment` and
`updated_at` columns — each photo's `selected` flag and
`similarity_group_id` (and identity/path/hash columns) are unchanged — and a
grouping run mutates only `similarity_group_id`, leaving `score`,
`ai_comment`, `selected` (and everything else, timestamps included)
unchanged. -/
theorem run_frame_conditions (envS envG : VisionEnv) (db : List Photo)
    (projectId : Nat) :
    List.Forall₂ ScoreFrame db
      (ClaudeVisionService.analyzePhotos envS db projectId).db ∧
    List.Forall₂ GroupFrame db
      (SimilarityGroupingService.groupPhotos envG db projectId).1 := by
  constructor
  · apply analyzePhotos_rel envS db projectId (fun _ => True) ScoreFrame
      scoreFrame_refl (fun x y z => scoreFrame_trans) (fun n t _ e _ => trivial)
    intro b
    apply applyEvaluations_rel envS b _ ScoreFrame scoreFrame_refl
      (fun x y z => scoreFrame_trans)
    intro db₂ e pid _ _ _ comment
    exact updateScore_frame db₂ _ comment envS.now pid
  · apply groupPhotos_rel envG db projectId GroupFrame groupFrame_refl
      (fun x y z => groupFrame_trans)
    · intro db₂
      exact clearGroups_frame db₂ projectId
    · intro gid p db₂
      exact setGroupId_frame db₂ gid p.id

/-! ### Claim C6 -/

/-- C6: ingestion is idempotent on content.  Whenever the uploaded file's
bytes hash to a fingerprint already present among the project's photos, the
upload returns `duplicate = true` carrying the existing record, leaves the
photo table untouched (no new row, the auto-increment counter unchanged)
and performs no file write — for an arbitrary file path, so the same bytes
under any other name still deduplicate. -/
theorem upload_dedup_idempotent (env : IngestEnv) (store : Store) (disk : Disk)
    (proj : Project) (filePath : String) (content : String) (q : Photo)
    (hread : disk.read filePath = some content)
    (hfind : store.photos.find?
      (fun p => p.project_id == proj.id && p.file_hash == env.hash content) = some q) :
    PhotoManager.processUpload env store disk proj filePath =
      .ok (store, disk, ⟨true, none, some q⟩) := by
  rw [PhotoManager.processUpload, hread]
  simp only [hfind]

/-- Witness for C6: the store already holds a photo whose fingerprint is
the hash of the bytes "PIXELS", recorded under the name `orig.png`;
uploading the same bytes from the differently-named path `copy/other.jpg`
returns the existing record and changes nothing. -/
theorem upload_dedup_idempotent_witness :
    ((Disk.mk [("copy/other.jpg", "PIXELS")]).read "copy/other.jpg" = some "PIXELS" ∧
      (Store.mk [⟨1, 1, "orig.png", "o", "t", "sha-PIXELS", 6, none, none, false, none, 0, 0⟩] 2).photos.find?
        (fun p => p.project_id == (1 : Nat) &&
          p.file_hash == (fun s => "sha-" ++ s) "PIXELS") =
        some ⟨1, 1, "orig.png", "o", "t", "sha-PIXELS", 6, none, none, false, none, 0, 0⟩) ∧
    PhotoManager.processUpload
      ⟨"/s", fun s => "sha-" ++ s, fun _ => some "tb", some "pb", 9⟩
      (Store.mk [⟨1, 1, "orig.png", "o", "t", "sha-PIXELS", 6, none, none, false, none, 0, 0⟩] 2)
      (Disk.mk [("copy/other.jpg", "PIXELS")]) ⟨1, "proj", none⟩ "copy/other.jpg" =
      .ok ((Store.mk [⟨1, 1, "orig.png", "o", "t", "sha-PIXELS", 6, none, none, false, none, 0, 0⟩] 2),
        (Disk.mk [("copy/other.jpg", "PIXELS")]),
        ⟨true, none, some ⟨1, 1, "orig.png", "o", "t", "sha-PIXELS", 6, none, none, false, none, 0, 0⟩⟩) :=
  ⟨⟨by decide, by decide⟩,
    upload_dedup_idempotent _ _ _ _ "copy/other.jpg" "PIXELS" _ (by decide) (by decide)⟩

/-! ### Claim C2 -/

theorem uploadLoop_read_failure (env : IngestEnv) (proj : Project) :
    ∀ (pre : List String) (bad : String) (rest : List String)
      (st : Store) (dk : Disk) (acc : UploadResults)
      (st₁ : Store) (dk₁ : Disk) (acc₁ : UploadResults),
      uploadLoop env proj pre st dk acc = (st₁, dk₁, .ok acc₁) →
      dk₁.read bad = none →
      uploadLoop env proj (pre ++ bad :: rest) st dk acc =
        (st₁, dk₁, .error .readErr) := by
  intro pre
  induction pre with
  | nil =>
    intro bad rest st dk acc st₁ dk₁ acc₁ hok hbad
    rw [uploadLoop] at hok
    simp only [Prod.mk.injEq] at hok
    obtain ⟨h1, h2, h3⟩ := hok
    subst h1
    subst h2
    rw [List.nil_append, uploadLoop]
    have hup : PhotoManager.processUpload env st dk proj bad = .error .readErr := by
      rw [PhotoManager.processUpload, hbad]
    rw [hup]
  | cons fp pt ih =>
    intro bad rest st dk acc st₁ dk₁ acc₁ hok hbad
    rw [uploadLoop] at hok
    rw [List.cons_append, uploadLoop]
    cases hup : PhotoManager.processUpload env st dk proj fp with
    | error e =>
      rw [hup] at hok
      cases hok
    | ok r =>
      obtain ⟨st', dk', r'⟩ := r
      rw [hup] at hok
      exact ih bad rest st' dk' _ st₁ dk₁ acc₁ hok hbad

/-- C2 (amended): a failure to read a file is fatal to the entire upload
run, not only to that file.  There is no try/catch around `processUpload`
in the `PHOTOS_UPLOAD` handler, so the first unreadable file makes the
whole handler reject: the state produced by the files before the failing
one is kept, and the files after it — readable or not — are never
processed. -/
theorem upload_read_failure_fatal_to_run (env : IngestEnv) (proj : Project)
    (pre : List String) (bad : String) (rest : List String)
    (st st₁ : Store) (dk dk₁ : Disk) (res : UploadResults)
    (hpre : photosUploadHandler env st dk proj pre = (st₁, dk₁, .ok res))
    (hbad : dk₁.read bad = none) :
    photosUploadHandler env st dk proj (pre ++ bad :: rest) =
      (st₁, dk₁, .error .readErr) :=
  uploadLoop_read_failure env proj pre bad rest st dk _ st₁ dk₁ res hpre hbad

/-- Witness for the amended C2: the run aborts at the unreadable first file
even though the next file is readable. -/
theorem upload_read_failure_fatal_to_run_witness :
    (photosUploadHandler ⟨"/s", fun s => "sha-" ++ s, fun _ => some "tb", some "pb", 3⟩
        (Store.mk [] 1) (Disk.mk [("good.jpg", "G")]) ⟨1, "p", none⟩ [] =
      ((Store.mk [] 1), (Disk.mk [("good.jpg", "G")]), .ok ⟨0, 0, []⟩) ∧
      (Disk.mk [("good.jpg", "G")]).read "missing.jpg" = none) ∧
    photosUploadHandler ⟨"/s", fun s => "sha-" ++ s, fun _ => some "tb", some "pb", 3⟩
      (Store.mk [] 1) (Disk.mk [("good.jpg", "G")]) ⟨1, "p", none⟩
      ([] ++ "missing.jpg" :: ["good.jpg"]) =
      ((Store.mk [] 1), (Disk.mk [("good.jpg", "G")]), .error .readErr) :=
  ⟨⟨rfl, rfl⟩,
    upload_read_failure_fatal_to_run _ _ [] "missing.jpg" ["good.jpg"] _ _ _ _ _
      rfl rfl⟩

/-- Counterexample to C2 as stated: two files, the first unreadable and the
second readable; the claim says the run continues with the next file and
every remaining file is still processed, but the handler rejects as a whole
and the readable second file is never ingested — the store is returned
unchanged with no photo row added. -/
theorem upload_read_failure_counterexample :
    (Disk.mk [("good.jpg", "G")]).read "good.jpg" = some "G" ∧
    photosUploadHandler ⟨"/s", fun s => "sha-" ++ s, fun _ => some "tb", some "pb", 3⟩
      (Store.mk [] 1) (Disk.mk [("good.jpg", "G")]) ⟨1, "p", none⟩
      ["missing.jpg", "good.jpg"] =
      ((Store.mk [] 1), (Disk.mk [("good.jpg", "G")]), .error .readErr) :=
  ⟨rfl, rfl⟩

/-! ### Claim C8: extraction lemmas -/

theorem toList_append (a b : String) : (a ++ b).toList = a.toList ++ b.toList := by
  simp [String.toList]

theorem dropWhile_ws_append (u v : List Char) (hu : ∀ c ∈ u, isSpaceJS c = true) :
    (u ++ v).dropWhile isSpaceJS = v.dropWhile isSpaceJS := by
  induction u with
  | nil => rfl
  | cons c t ih =>
    rw [List.cons_append, List.dropWhile_cons, if_pos (hu c (by simp))]
    exact ih fun d hd => hu d (by simp [hd])

theorem dropWhile_cons_of_neg (c : Char) (v : List Char) (hc : isSpaceJS c = false) :
    (c :: v).dropWhile isSpaceJS = c :: v := by
  rw [List.dropWhile_cons, if_neg (by simp [hc])]

theorem dropWhile_head_false (l : List Char) :
    ∀ (c : Char) (rest : List Char),
      l.dropWhile isSpaceJS = c :: rest → isSpaceJS c = false := by
  induction l with
  | nil => intro c rest h; cases h
  | cons a t ih =>
    intro c rest h
    rw [List.dropWhile_cons] at h
    by_cases ha : isSpaceJS a = true
    · rw [if_pos (by simp [ha])] at h
      exact ih c rest h
    · rw [if_neg (by simpa using ha)] at h
      injection h with h1 _
      subst h1
      simpa using ha

theorem dropWhile_head?_false (l : List Char) (c : Char)
    (h : (l.dropWhile isSpaceJS).head? = some c) : isSpaceJS c = false := by
  cases hd : l.dropWhile isSpaceJS with
  | nil => rw [hd] at h; cases h
  | cons x rest =>
    rw [hd] at h
    injection h with h1
    subst h1
    exact dropWhile_head_false l x rest hd

theorem startsWithSeq_append (pat : List Char) :
    ∀ (v w : List Char), startsWithSeq pat v = true →
      startsWithSeq pat (v ++ w) = true := by
  induction pat with
  | nil => intro v w _; rfl
  | cons p ps ih =>
    intro v w h
    cases v with
    | nil => cases h
    | cons c cs =>
      rw [startsWithSeq, Bool.and_eq_true] at h
      rw [List.cons_append, startsWithSeq, Bool.and_eq_true]
      exact ⟨h.1, ih cs w h.2⟩

theorem hasSeq_of_startsWithSeq (pat v : List Char) (h : startsWithSeq pat v = true) :
    hasSeq pat v = true := by
  cases v with
  | nil => rw [hasSeq]; exact h
  | cons c cs => rw [hasSeq]; simp [h]

theorem hasSeq_append_left (pat : List Char) :
    ∀ (u v : List Char), hasSeq pat v = true → hasSeq pat (u ++ v) = true := by
  intro u
  induction u with
  | nil => intro v h; simpa using h
  | cons c t ih =>
    intro v h
    rw [List.cons_append, hasSeq, Bool.or_eq_true]
    exact Or.inr (ih v h)

theorem startsWithSeq_nil_all (pat : List Char) (h : startsWithSeq pat [] = true) :
    ∀ v, startsWithSeq pat v = true := by
  intro v
  cases pat with
  | nil => rfl
  | cons p ps => cases h

theorem hasSeq_infix (pat : List Char) :
    ∀ (m : List Char), hasSeq pat m = true →
      ∀ u v, hasSeq pat (u ++ (m ++ v)) = true := by
  intro m
  induction m with
  | nil =>
    intro h u v
    rw [hasSeq] at h
    rw [List.nil_append]
    exact hasSeq_append_left pat u v
      (hasSeq_of_startsWithSeq pat v (startsWithSeq_nil_all pat h v))
  | cons c m' ih =>
    intro h u v
    rw [hasSeq, Bool.or_eq_true] at h
    rcases h with h1 | h2
    · exact hasSeq_append_left pat u _
        (hasSeq_of_startsWithSeq pat _ (startsWithSeq_append pat _ v h1))
    · have := ih h2 (u ++ [c]) v
      simpa [List.append_assoc] using this

theorem getLast?_all_ws (core : List Char) (hcore : core ≠ [])
    (hall : ∀ x ∈ core, isSpaceJS x = true) :
    ∀ c, core.getLast? = some c → isSpaceJS c = true := by
  intro c hc
  have hm : c ∈ core := by
    have := List.getLast?_eq_getLast core hcore
    rw [this] at hc
    injection hc with h1
    rw [← h1]
    exact List.getLast_mem hcore
  exact hall c hm

theorem tailFence_false_of_core (core w : List Char) (hcore : core ≠ [])
    (hlast : ∀ c, core.getLast? = some c → isSpaceJS c = false)
    (hticks : hasSeq ticks core = false)
    (hw : w ≠ []) (hws : ∀ c ∈ w, isSpaceJS c = true) :
    tailFence (core ++ w ++ ticks) = false := by
  have hdec : core.takeWhile isSpaceJS ++ core.dropWhile isSpaceJS = core :=
    List.takeWhile_append_dropWhile isSpaceJS core
  have hDne : core.dropWhile isSpaceJS ≠ [] := by
    intro h0
    have hall : ∀ x ∈ core, isSpaceJS x = true := List.dropWhile_eq_nil_iff.mp h0
    have hl := List.getLast?_eq_getLast core hcore
    have := hlast (core.getLast hcore) hl
    have h2 := getLast?_all_ws core hcore hall (core.getLast hcore) hl
    rw [this] at h2
    cases h2
  obtain ⟨d, D', hDeq⟩ := List.exists_cons_of_ne_nil hDne
  have hd : isSpaceJS d = false := dropWhile_head_false core d D' hDeq
  have h1 : (core ++ w ++ ticks).dropWhile isSpaceJS = (d :: D') ++ w ++ ticks := by
    have e1 : core ++ w ++ ticks =
        core.takeWhile isSpaceJS ++ ((d :: D') ++ (w ++ ticks)) := by
      rw [← List.append_assoc, ← hDeq, hdec, List.append_assoc]
    rw [e1, dropWhile_ws_append _ _ (fun c hc => List.mem_takeWhile_imp hc),
      List.cons_append, dropWhile_cons_of_neg d _ hd]
    simp [List.append_assoc]
  rw [tailFence, h1]
  obtain ⟨wc, w', hweq⟩ := List.exists_cons_of_ne_nil hw
  have hwc : isSpaceJS wc = true := hws wc (by rw [hweq]; simp)
  have hwcne : ('`' = wc) = False := by
    simp only [eq_iff_iff, iff_false]
    intro h0
    rw [← h0] at hwc
    exact absurd hwc (by decide)
  have htick_core : startsWithSeq ticks (d :: D') = true → False := by
    intro hsw
    have h3 : hasSeq ticks core = true := by
      have he2 : core = core.takeWhile isSpaceJS ++ ((d :: D') ++ []) := by
        rw [List.append_nil, ← hDeq, hdec]
      rw [he2]
      exact hasSeq_infix ticks (d :: D') (hasSeq_of_startsWithSeq _ _ hsw)
        (core.takeWhile isSpaceJS) []
    rw [hticks] at h3
    cases h3
  by_cases hd' : d = '`'
  · subst hd'
    cases D' with
    | nil =>
      rw [hweq]
      simp [ticks, startsWithSeq, hwcne]
    | cons e D'' =>
      by_cases he : e = '`'
      · subst he
        cases D'' with
        | nil =>
          rw [hweq]
          simp [ticks, startsWithSeq, hwcne]
        | cons f D''' =>
          by_cases hf : f = '`'
          · subst hf
            exact absurd (by simp [ticks, startsWithSeq]) htick_core
          · have hf' : ('`' = f) = False := by
              simp only [eq_iff_iff, iff_false]
              intro h0
              exact hf h0.symm
            simp [ticks, startsWithSeq, hf']
      · have he' : ('`' = e) = False := by
          simp only [eq_iff_iff, iff_false]
          intro h0
          exact he h0.symm
        simp [ticks, startsWithSeq, he']
  · have hd'' : ('`' = d) = False := by
      simp only [eq_iff_iff, iff_false]
      intro h0
      exact hd' h0.symm
    simp [ticks, startsWithSeq, hd'']

theorem lazyCapture_core (w : List Char) (hw : w ≠ [])
    (hws : ∀ c ∈ w, isSpaceJS c = true) :
    ∀ core : List Char,
      (∀ c, core.getLast? = some c → isSpaceJS c = false) →
      hasSeq ticks core = false →
      lazyCapture (core ++ w ++ ticks) = some core := by
  intro core
  induction core with
  | nil =>
    intro _ _
    obtain ⟨c, w', hw'⟩ := List.exists_cons_of_ne_nil hw
    have htf : tailFence (c :: (w' ++ ticks)) = true := by
      rw [tailFence,
        show c :: (w' ++ ticks) = (c :: w') ++ ticks from rfl,
        dropWhile_ws_append _ _ (fun x hx => hws x (by rw [hw']; exact hx))]
      decide
    rw [List.nil_append, hw', List.cons_append, lazyCapture, htf]
    rfl
  | cons c core' ih =>
    intro hlast hticks
    have htf : tailFence ((c :: core') ++ w ++ ticks) = false :=
      tailFence_false_of_core _ w (by simp) hlast hticks hw hws
    have hlast' : ∀ c', core'.getLast? = some c' → isSpaceJS c' = false := by
      intro c' h'
      apply hlast
      cases core' with
      | nil => cases h'
      | cons d t => rw [List.getLast?_cons_cons]; exact h'
    have hticks' : hasSeq ticks core' = false := by
      rw [hasSeq, Bool.or_eq_false_iff] at hticks
      exact hticks.2
    rw [show (c :: core') ++ w ++ ticks = c :: (core' ++ w ++ ticks) from rfl,
      lazyCapture,
      show c :: (core' ++ w ++ ticks) = (c :: core') ++ w ++ ticks from rfl,
      htf, ih hlast' hticks']
    rfl

theorem findFence_none (l : List Char) (h : hasSeq ticks l = false) :
    findFence l = none := by
  induction l with
  | nil => rfl
  | cons c t ih =>
    rw [hasSeq, Bool.or_eq_false_iff] at h
    rw [findFence, h.1]
    simp only [Bool.false_eq_true, if_false]
    exact ih h.2

/-- Lazy capture applied to a body followed by a newline and the closing
fence: exactly the trimmed body, provided the body holds no fence
delimiter. -/
theorem lazyCapture_body (body' : List Char) (hb : hasSeq ticks body' = false) :
    lazyCapture ((body' ++ '\n' :: ticks).dropWhile isSpaceJS) =
      some (jsTrim body') := by
  have hsplit : body' = body'.takeWhile isSpaceJS ++ body'.dropWhile isSpaceJS :=
    (List.takeWhile_append_dropWhile isSpaceJS body').symm
  have hstep : (body' ++ '\n' :: ticks).dropWhile isSpaceJS =
      (body'.dropWhile isSpaceJS ++ '\n' :: ticks).dropWhile isSpaceJS := by
    conv_lhs => rw [hsplit]
    rw [List.append_assoc]
    exact dropWhile_ws_append _ _ fun c hc => List.mem_takeWhile_imp hc
  rw [hstep]
  cases hb₁c : body'.dropWhile isSpaceJS with
  | nil =>
    have htr : jsTrim body' = [] := by
      rw [jsTrim, hb₁c]
      rfl
    rw [List.nil_append, htr]
    decide
  | cons x b₁' =>
    have hx : isSpaceJS x = false := dropWhile_head_false body' x b₁' hb₁c
    have hcoreq : jsTrim body' =
        ((body'.dropWhile isSpaceJS).reverse.dropWhile isSpaceJS).reverse := by
      rw [jsTrim]
    have hbsplit : body'.dropWhile isSpaceJS =
        ((body'.dropWhile isSpaceJS).reverse.dropWhile isSpaceJS).reverse ++
          ((body'.dropWhile isSpaceJS).reverse.takeWhile isSpaceJS).reverse := by
      conv_lhs => rw [← List.reverse_reverse (body'.dropWhile isSpaceJS),
        ← List.takeWhile_append_dropWhile (p := isSpaceJS)
          (l := (body'.dropWhile isSpaceJS).reverse)]
      rw [List.reverse_append]
    have hlastCore : ∀ c,
        (((body'.dropWhile isSpaceJS).reverse.dropWhile isSpaceJS).reverse).getLast? =
          some c → isSpaceJS c = false := by
      intro c hc
      rw [List.getLast?_eq_head?_reverse, List.reverse_reverse] at hc
      exact dropWhile_head?_false _ c hc
    have hticksCore :
        hasSeq ticks (((body'.dropWhile isSpaceJS).reverse.dropWhile isSpaceJS).reverse) =
          false := by
      by_contra hcon
      rw [Bool.not_eq_false] at hcon
      have : hasSeq ticks body' = true := by
        conv_lhs => rw [hsplit, hbsplit]
        exact hasSeq_infix ticks _ hcon _ _
      rw [hb] at this
      cases this
    have hwsAll : ∀ c ∈ ((body'.dropWhile isSpaceJS).reverse.takeWhile isSpaceJS).reverse
        ++ ['\n'], isSpaceJS c = true := by
      intro c hc
      rw [List.mem_append] at hc
      rcases hc with hc | hc
      · rw [List.mem_reverse] at hc
        exact List.mem_takeWhile_imp hc
      · simp only [List.mem_singleton] at hc
        rw [hc]
        rfl
    have hsh : body'.dropWhile isSpaceJS ++ '\n' :: ticks =
        ((body'.dropWhile isSpaceJS).reverse.dropWhile isSpaceJS).reverse ++
          (((body'.dropWhile isSpaceJS).reverse.takeWhile isSpaceJS).reverse ++ ['\n'])
          ++ ticks := by
      conv_lhs => rw [hbsplit]
      simp [List.append_assoc]
    have hlc := lazyCapture_core
      (((body'.dropWhile isSpaceJS).reverse.takeWhile isSpaceJS).reverse ++ ['\n'])
      (by simp) hwsAll
      (((body'.dropWhile isSpaceJS).reverse.dropWhile isSpaceJS).reverse)
      hlastCore hticksCore
    have hdw : (body'.dropWhile isSpaceJS ++ '\n' :: ticks).dropWhile isSpaceJS =
        body'.dropWhile isSpaceJS ++ '\n' :: ticks := by
      rw [hb₁c, List.cons_append, dropWhile_cons_of_neg x _ hx, ← List.cons_append]
    rw [← hb₁c, hdw, hsh, hlc, hcoreq]

/-- Capture extracted from the canonical fenced wrapping of a body holding
no fence delimiter: exactly the trimmed body, which is also what the bare
body extracts to. -/
theorem extract_fenced (body : String) (hb : hasSeq ticks body.toList = false) :
    extractJsonStr ("```json\n" ++ body ++ "\n```") = String.mk (jsTrim body.toList) ∧
    extractJsonStr body = String.mk (jsTrim body.toList) := by
  constructor
  · have hF : ("```json\n" ++ body ++ "\n```").toList =
        '`' :: '`' :: '`' :: 'j' :: 's' :: 'o' :: 'n' :: '\n' ::
          (body.toList ++ '\n' :: ticks) := by
      rw [toList_append, toList_append]
      rfl
    have hft : fenceTail ('j' :: 's' :: 'o' :: 'n' :: '\n' ::
        (body.toList ++ '\n' :: ticks)) = some (jsTrim body.toList) := by
      rw [fenceTail,
        if_pos (show startsWithSeq ['j', 's', 'o', 'n'] ('j' :: 's' :: 'o' :: 'n' ::
          '\n' :: (body.toList ++ '\n' :: ticks)) = true from rfl),
        show ((('j' :: 's' :: 'o' :: 'n' :: '\n' ::
          (body.toList ++ '\n' :: ticks)).drop 4).dropWhile isSpaceJS) =
          ((body.toList ++ '\n' :: ticks).dropWhile isSpaceJS) from rfl,
        lazyCapture_body body.toList hb]
    rw [extractJsonStr, hF, findFence,
      if_pos (show startsWithSeq ticks ('`' :: '`' :: '`' :: 'j' :: 's' :: 'o' :: 'n' ::
        '\n' :: (body.toList ++ '\n' :: ticks)) = true from rfl),
      show (('`' :: '`' :: 'j' :: 's' :: 'o' :: 'n' :: '\n' ::
        (body.toList ++ '\n' :: ticks)).drop 2) =
        ('j' :: 's' :: 'o' :: 'n' :: '\n' :: (body.toList ++ '\n' :: ticks)) from rfl,
      hft]
  · rw [extractJsonStr, findFence_none _ hb]

/-- C8 (amended): the parser prefers the interior of a fenced code block and
uses the full trimmed text otherwise, so a response fenced in a code block
parses identically to the same bare text (for any body free of the fence
delimiter); an input whose extracted text fails to parse as JSON yields the
empty evaluations/groups fallback without raising; but an input that parses
as JSON of the wrong shape is returned as-is — the declared shape is not
validated, and the empty fallback is produced only on JSON parse failure. -/
theorem parser_tolerance_amended :
    (∀ body : String, hasSeq ticks body.toList = false →
      ClaudeVisionService.parseResponse ("```json\n" ++ body ++ "\n```") =
        ClaudeVisionService.parseResponse body ∧
      SimilarityGroupingService.parseResponse ("```json\n" ++ body ++ "\n```") =
        SimilarityGroupingService.parseResponse body) ∧
    (∀ t : String, jsonParse (extractJsonStr t) = none →
      ClaudeVisionService.parseResponse t = .jobj [("evaluations", .jarr [])] ∧
      SimilarityGroupingService.parseResponse t = .jobj [("groups", .jarr [])]) ∧
    (∀ (t : String) (v : Json), jsonParse (extractJsonStr t) = some v →
      ClaudeVisionService.parseResponse t = v ∧
      SimilarityGroupingService.parseResponse t = v) := by
  refine ⟨?_, ?_, ?_⟩
  · intro body hb
    obtain ⟨h1, h2⟩ := extract_fenced body hb
    constructor
    · rw [ClaudeVisionService.parseResponse, ClaudeVisionService.parseResponse, h1, h2]
    · rw [SimilarityGroupingService.parseResponse,
        SimilarityGroupingService.parseResponse, h1, h2]
  · intro t ht
    constructor
    · rw [ClaudeVisionService.parseResponse, ht]
    · rw [SimilarityGroupingService.parseResponse, ht]
  · intro t v ht
    constructor
    · rw [ClaudeVisionService.parseResponse, ht]
    · rw [SimilarityGroupingService.parseResponse, ht]

/-- Witness for the amended C8: a concrete JSON body parses the same fenced
and bare; concrete garbage yields the empty fallback; and the valid JSON
number `42` is returned as-is. -/
theorem parser_tolerance_amended_witness :
    (hasSeq ticks ("\x7b\"evaluations\": []\x7d" : String).toList = false ∧
      ClaudeVisionService.parseResponse ("```json\n" ++ "\x7b\"evaluations\": []\x7d" ++ "\n```") =
        ClaudeVisionService.parseResponse "\x7b\"evaluations\": []\x7d") ∧
    (jsonParse (extractJsonStr "*** hello ***") = none ∧
      ClaudeVisionService.parseResponse "*** hello ***" =
        .jobj [("evaluations", .jarr [])]) ∧
    (jsonParse (extractJsonStr "42") = some (.jnum ⟨42, 0⟩) ∧
      ClaudeVisionService.parseResponse "42" = .jnum ⟨42, 0⟩) :=
  ⟨⟨by decide, (parser_tolerance_amended.1 "\x7b\"evaluations\": []\x7d" (by decide)).1⟩,
    ⟨rfl, (parser_tolerance_amended.2.1 "*** hello ***" rfl).1⟩,
    ⟨rfl, (parser_tolerance_amended.2.2 "42" (.jnum ⟨42, 0⟩) rfl).1⟩⟩

/-- Counterexample to C8 as stated: the input `42` does not parse to the
expected shape (no evaluations list), yet the parser does not yield an
empty-evaluations result — it returns the number itself — and the consuming
batch call raises (the batch fails) instead of proceeding with an empty
result. -/
theorem parser_wrong_shape_counterexample :
    ClaudeVisionService.parseResponse "42" = .jnum ⟨42, 0⟩ ∧
    (∀ fields, ClaudeVisionService.parseResponse "42" ≠ Json.jobj fields) ∧
    evaluationsList (ClaudeVisionService.parseResponse "42") = .error () ∧
    ClaudeVisionService.analyzeBatch
      ⟨fun _ => .replyText "42", fun _ => some "img", 5⟩
      [⟨1, 1, "a", "o", "t", "h", 0, none, none, false, none, 0, 0⟩]
      [⟨1, 1, "a", "o", "t", "h", 0, none, none, false, none, 0, 0⟩] 0 =
      ([⟨1, 1, "a", "o", "t", "h", 0, none, none, false, none, 0, 0⟩],
        .error (), [], 1)
  := by
  refine ⟨rfl, ?_, rfl, rfl⟩
  intro fields h
  rw [show ClaudeVisionService.parseResponse "42" = Json.jnum ⟨42, 0⟩ from rfl] at h
  cases h

/-! ### Claim C1 -/

theorem forall₂_mem_right {R : Photo → Photo → Prop} :
    ∀ {l₁ l₂ : List Photo}, List.Forall₂ R l₁ l₂ →
      ∀ b ∈ l₂, ∃ a ∈ l₁, R a b := by
  intro l₁ l₂ h
  induction h with
  | nil => intro b hb; cases hb
  | cons hab _ ih =>
    intro b hb
    rcases List.mem_cons.mp hb with hb | hb
    · exact ⟨_, by simp, hb ▸ hab⟩
    · obtain ⟨a, ha, hr⟩ := ih b hb
      exact ⟨a, by simp [ha], hr⟩

theorem updateScore_step_range (env : VisionEnv) (photos : List Photo) :
    StepRel env photos evalScoreOk
      (fun p q => (rowScoreOk p → rowScoreOk q) ∧
        (q.score = p.score ∨ writtenScoreOk q)) := by
  apply applyEvaluations_rel env photos _ _
    (fun x => ⟨id, Or.inl rfl⟩)
  · intro x y z hxy hyz
    refine ⟨fun hx => hyz.1 (hxy.1 hx), ?_⟩
    rcases hyz.2 with h2 | h2
    · rcases hxy.2 with h1 | h1
      · exact Or.inl (h2.trans h1)
      · rcases h1 with h1 | ⟨d, hd, hr⟩
        · exact Or.inr (Or.inl (h2.trans h1))
        · exact Or.inr (Or.inr ⟨d, h2.trans hd, hr⟩)
    · exact Or.inr h2
  · intro db e pid hPe hpid hfind comment
    apply forall₂_map_of
    intro x
    by_cases hxid : jsEqNat pid x.id
    · simp only [updateScore, hxid, if_true]
      constructor
      · intro _
        intro d hd
        cases hsc : toNumber (getMember e "score") with
        | none => rw [hsc] at hd; simp at hd
        | some s =>
          rw [hsc] at hd
          simp only [Option.map_some] at hd
          injection hd with hd
          subst hd
          have hs : scoreInRange s := hPe s hsc
          exact ⟨(round1_range hs.1 hs.2).1, (round1_range hs.1 hs.2).2⟩
      · cases hsc : toNumber (getMember e "score") with
        | none => exact Or.inr (Or.inl (by simp [hsc]))
        | some s =>
          refine Or.inr (Or.inr ⟨s.round1, by simp [hsc], ?_, round1_tenth s⟩)
          have hs : scoreInRange s := hPe s hsc
          exact ⟨(round1_range hs.1 hs.2).1, (round1_range hs.1 hs.2).2⟩
    · simp only [updateScore, hxid]
      exact ⟨id, Or.inl rfl⟩

/-- C1 (amended): provided every non-null score already in the store and
every numeric score the service returns lie in `[0.0, 10.0]`, after any
scoring run every non-null score in the store lies in `[0.0, 10.0]`; and
every score cell the run rewrites holds either NULL (a `NaN` coercion) or
an in-range value rounded to one decimal.  The code applies
`Math.round(score * 10) / 10` with no explicit clamp, so the `[0, 10]`
bound rests on the service honouring its contract, not on the
reconciler. -/
theorem scoring_range_preservation (env : VisionEnv) (db : List Photo)
    (projectId : Nat) (hdb : ∀ p ∈ db, rowScoreOk p)
    (henv : ∀ n t, env.svc n = .replyText t → ∀ e ∈ evaluationsOf t, evalScoreOk e) :
    (∀ q ∈ (ClaudeVisionService.analyzePhotos env db projectId).db, rowScoreOk q) ∧
    List.Forall₂ (fun p q => q.score = p.score ∨ writtenScoreOk q) db
      (ClaudeVisionService.analyzePhotos env db projectId).db := by
  have hrel := analyzePhotos_rel env db projectId evalScoreOk
    (fun p q => (rowScoreOk p → rowScoreOk q) ∧
      (q.score = p.score ∨ writtenScoreOk q))
    (fun x => ⟨id, Or.inl rfl⟩)
    (by
      intro x y z hxy hyz
      refine ⟨fun hx => hyz.1 (hxy.1 hx), ?_⟩
      rcases hyz.2 with h2 | h2
      · rcases hxy.2 with h1 | h1
        · exact Or.inl (h2.trans h1)
        · rcases h1 with h1 | ⟨d, hd, hr⟩
          · exact Or.inr (Or.inl (h2.trans h1))
          · exact Or.inr (Or.inr ⟨d, h2.trans hd, hr⟩)
      · exact Or.inr h2)
    henv
    (fun b => updateScore_step_range env b)
  constructor
  · intro q hq
    obtain ⟨p, hp, hR⟩ := forall₂_mem_right hrel q hq
    exact hR.1 (hdb p hp)
  · exact hrel.imp fun a b h => h.2

/-- Witness for the amended C1: a store with one unscored photo and a
service that always fails; the hypotheses hold and the theorem applies. -/
theorem scoring_range_preservation_witness :
    ((∀ p ∈ [(⟨1, 1, "a", "o", "t", "h", 0, none, none, false, none, 0, 0⟩ : Photo)],
        rowScoreOk p) ∧
      (∀ n t, (VisionEnv.mk (fun _ => .failure) (fun _ => some "img") 7).svc n =
          .replyText t → ∀ e ∈ evaluationsOf t, evalScoreOk e)) ∧
    ((∀ q ∈ (ClaudeVisionService.analyzePhotos
        ⟨fun _ => .failure, fun _ => some "img", 7⟩
        [⟨1, 1, "a", "o", "t", "h", 0, none, none, false, none, 0, 0⟩] 1).db,
        rowScoreOk q) ∧
      List.Forall₂ (fun p q => q.score = p.score ∨ writtenScoreOk q)
        [(⟨1, 1, "a", "o", "t", "h", 0, none, none, false, none, 0, 0⟩ : Photo)]
        (ClaudeVisionService.analyzePhotos
          ⟨fun _ => .failure, fun _ => some "img", 7⟩
          [⟨1, 1, "a", "o", "t", "h", 0, none, none, false, none, 0, 0⟩] 1).db) := by
  refine ⟨⟨?_, ?_⟩, ?_⟩
  · intro p hp d hd
    simp only [List.mem_singleton] at hp
    subst hp
    cases hd
  · intro n t h
    cases h
  · apply scoring_range_preservation
    · intro p hp d hd
      simp only [List.mem_singleton] at hp
      subst hp
      cases hd
    · intro n t h
      cases h

/-- Counterexample to C1 as stated: a service evaluation carrying the
numeric score 15 is written through unchanged (`Math.round(15 * 10) / 10 =
15`), leaving a persisted score of 15 — outside `[0.0, 10.0]` — because the
reconciler never clamps. -/
theorem scoring_no_clamp_counterexample :
    ((ClaudeVisionService.analyzePhotos
        ⟨fun _ => .replyText
          "\x7b\"evaluations\":[\x7b\"photo_id\":1,\"score\":15,\"comment\":\"x\"\x7d]\x7d",
          fun _ => some "img", 7⟩
        [⟨1, 1, "a", "o", "t", "h", 0, none, none, false, none, 0, 0⟩] 1).db.map
      fun p => p.score) = [some ⟨150, -1⟩] ∧
    (⟨150, -1⟩ : JsNum).toQ = 15 ∧ ¬ (⟨150, -1⟩ : JsNum).toQ ≤ 10 := by
  refine ⟨by decide, ?_, ?_⟩
  · rw [JsNum.toQ]
    norm_num
  · rw [JsNum.toQ]
    norm_num

/-! ### Claim C3 -/

theorem gRel_refl (bIds : List Nat) (x : Photo) : GRel bIds x x :=
  ⟨rfl, rfl, Or.inl rfl⟩

theorem gRel_trans (bIds : List Nat) :
    ∀ x y z, GRel bIds x y → GRel bIds y z → GRel bIds x z := by
  intro x y z hxy hyz
  refine ⟨hyz.1.trans hxy.1, hyz.2.1.trans hxy.2.1, ?_⟩
  rcases hyz.2.2 with h | h
  · rcases hxy.2.2 with h' | h'
    · exact Or.inl (h.trans h')
    · exact Or.inr h'
  · exact Or.inr (hxy.1 ▸ h)

theorem forall₂_mem_left {R : Photo → Photo → Prop} :
    ∀ {l₁ l₂ : List Photo}, List.Forall₂ R l₁ l₂ →
      ∀ a ∈ l₁, ∃ b ∈ l₂, R a b := by
  intro l₁ l₂ h
  induction h with
  | nil => intro a ha; cases ha
  | cons hab _ ih =>
    intro a ha
    rcases List.mem_cons.mp ha with ha | ha
    · exact ⟨_, by simp, ha ▸ hab⟩
    · obtain ⟨b, hb, hr⟩ := ih a ha
      exact ⟨b, by simp [hb], hr⟩

/-- A single `UPDATE ... SET similarity_group_id = ? WHERE id = ?` pass per
matched photo is one map over the store: rows whose id is among the matched
ids receive the group id, every other row is untouched. -/
theorem foldl_setGroupId_eq (gid : Nat) :
    ∀ (ms : List Photo) (db : List Photo),
      ms.foldl (fun acc p => setGroupId acc gid p.id) db =
        db.map fun r =>
          if ms.any fun p => r.id == p.id then
            { r with similarity_group_id := some gid } else r := by
  intro ms
  induction ms with
  | nil =>
    intro db
    simp [List.foldl_nil]
  | cons p pt ih =>
    intro db
    rw [List.foldl_cons, ih, setGroupId, List.map_map]
    apply List.map_congr_left
    intro r _
    simp only [Function.comp_apply, List.any_cons]
    by_cases h : (r.id == p.id) = true
    · rw [if_pos h]
      simp only [h, Bool.true_or, ite_true]
      split <;> rfl
    · rw [if_neg h]
      rw [Bool.not_eq_true] at h
      simp only [h, Bool.false_or]

theorem countMembers_countP (db : List Photo) (pid g : Nat) :
    countMembers db pid g =
      db.countP fun p => p.project_id == pid && p.similarity_group_id == some g :=
  (List.countP_eq_length_filter _ _).symm

/-- Each of at least two matched photos with pairwise distinct ids has its
own row in the store carrying the project id, so the count of written rows
is at least two. -/
theorem two_le_matched_countP (pid : Nat) (ms db : List Photo)
    (hlen : 2 ≤ ms.length) (hnd : (ms.map Photo.id).Nodup)
    (hpres : ∀ p ∈ ms, ∃ r ∈ db, r.id = p.id ∧ r.project_id = pid) :
    2 ≤ db.countP fun r => (ms.any fun p => r.id == p.id) && (r.project_id == pid) := by
  have hsub : (ms.map Photo.id) ⊆
      (db.filter fun r =>
        (ms.any fun p => r.id == p.id) && (r.project_id == pid)).map Photo.id := by
    intro n hn
    obtain ⟨p, hp, hpn⟩ := List.mem_map.mp hn
    obtain ⟨r, hr, hrid, hrproj⟩ := hpres p hp
    refine List.mem_map.mpr ⟨r, List.mem_filter.mpr ⟨hr, ?_⟩, by rw [hrid, hpn]⟩
    rw [Bool.and_eq_true]
    exact ⟨List.any_eq_true.mpr ⟨p, hp, beq_iff_eq.mpr hrid⟩, beq_iff_eq.mpr hrproj⟩
  calc 2 ≤ ms.length := hlen
    _ = (ms.map Photo.id).length := (List.length_map ms Photo.id).symm
    _ ≤ _ := (List.subperm_of_subset hnd hsub).length_le
    _ = _ := List.length_map _ Photo.id
    _ = _ := (List.countP_eq_length_filter _ _).symm

theorem matchedOf_id_nodup (b : List Photo) (rep : PidsRep)
    (hbnd : (b.map Photo.id).Nodup) :
    ((matchedOf b rep).map Photo.id).Nodup := by
  cases rep with
  | list l => exact hbnd.sublist ((List.filter_sublist b).map Photo.id)
  | str s => exact hbnd.sublist ((List.filter_sublist b).map Photo.id)
  | bad => exact List.nodup_nil

theorem appliedIds_subset (b : List Photo) (g : Json) :
    ∀ n ∈ appliedIds b g, n ∈ b.map Photo.id := by
  intro n hn
  simp only [appliedIds] at hn
  split at hn
  · cases hn
  · split at hn
    · cases hn
    · split at hn
      · cases hn
      · split at hn
        · cases hn
        · obtain ⟨p, hp, hpn⟩ := List.mem_map.mp hn
          exact List.mem_map.mpr ⟨p, matchedOf_subset b _ p hp, hpn⟩

theorem pairwiseApplied_of_short (b : List Photo) (gs : List Json)
    (h : gs.length ≤ 1) : pairwiseApplied b gs := by
  cases gs with
  | nil => exact List.Pairwise.nil
  | cons g t =>
    cases t with
    | nil => exact List.pairwise_singleton _ g
    | cons g' t' => simp only [List.length_cons] at h; omega

theorem clearGroups_map_id (db : List Photo) (pid : Nat) :
    (clearGroups db pid).map Photo.id = db.map Photo.id := by
  rw [clearGroups, List.map_map]
  apply List.map_congr_left
  intro r _
  by_cases h : (r.project_id == pid) = true <;> simp [Function.comp, h]

theorem clearGroups_pid_none (db : List Photo) (pid : Nat) :
    ∀ r ∈ clearGroups db pid, r.project_id = pid → r.similarity_group_id = none := by
  intro r hr hproj
  rw [clearGroups] at hr
  obtain ⟨r₀, hr₀, hmap⟩ := List.mem_map.mp hr
  by_cases h : (r₀.project_id == pid) = true
  · rw [if_pos h] at hmap
    rw [← hmap]
  · rw [if_neg h] at hmap
    subst hmap
    exact absurd (beq_iff_eq.mpr hproj) h

/-- One applied proposal: writing a fresh group id to at least two matched,
currently ungrouped photos keeps every persisted group's member count away
from one, keeps ids below the bumped allocator, and only rewrites the group
id of matched rows. -/
theorem write_step (pid gid : Nat) (ms db : List Photo)
    (hlen : 2 ≤ ms.length)
    (hnd : (ms.map Photo.id).Nodup)
    (hpres : ∀ p ∈ ms, ∃ r ∈ db, r.id = p.id ∧ r.project_id = pid)
    (hfresh : freshGids db pid gid)
    (hgood : goodCounts db pid)
    (hU : ∀ r ∈ db, r.id ∈ ms.map Photo.id → r.similarity_group_id = none) :
    goodCounts (ms.foldl (fun acc p => setGroupId acc gid p.id) db) pid ∧
    freshGids (ms.foldl (fun acc p => setGroupId acc gid p.id) db) pid (gid + 1) ∧
    List.Forall₂ (fun r r' => r'.id = r.id ∧ r'.project_id = r.project_id ∧
        (r'.similarity_group_id = r.similarity_group_id ∨ r.id ∈ ms.map Photo.id))
      db (ms.foldl (fun acc p => setGroupId acc gid p.id) db) := by
  rw [foldl_setGroupId_eq]
  refine ⟨?_, ?_, ?_⟩
  · intro g
    rw [countMembers_countP, List.countP_map]
    by_cases hg : g = gid
    · rw [hg]
      right
      have hcong : db.countP ((fun p => p.project_id == pid &&
            p.similarity_group_id == some gid) ∘ fun r =>
              if ms.any fun p => r.id == p.id then
                { r with similarity_group_id := some gid } else r) =
          db.countP fun r => (ms.any fun p => r.id == p.id) && (r.project_id == pid) := by
        apply List.countP_congr
        intro r hr
        simp only [Function.comp_apply]
        by_cases hc : (ms.any fun p => r.id == p.id) = true
        · rw [if_pos hc]
          simp only [hc, Bool.true_and]
          constructor
          · intro hb
            rw [Bool.and_eq_true] at hb
            exact hb.1
          · intro hb
            rw [Bool.and_eq_true]
            exact ⟨hb, by simp⟩
        · rw [if_neg hc]
          rw [Bool.not_eq_true] at hc
          simp only [hc, Bool.false_and]
          constructor
          · intro hb
            rw [Bool.and_eq_true] at hb
            obtain ⟨hproj, hgid⟩ := hb
            have hproj' : r.project_id = pid := beq_iff_eq.mp hproj
            cases hrg : r.similarity_group_id with
            | none => rw [hrg] at hgid; cases hgid
            | some g' =>
              have hlt := hfresh r hr hproj' g' hrg
              rw [hrg] at hgid
              have : g' = gid := by
                have := beq_iff_eq.mp hgid
                injection this
              omega
          · intro hb
            cases hb
      rw [hcong]
      exact two_le_matched_countP pid ms db hlen hnd hpres
    · have hcong : db.countP ((fun p => p.project_id == pid &&
            p.similarity_group_id == some g) ∘ fun r =>
              if ms.any fun p => r.id == p.id then
                { r with similarity_group_id := some gid } else r) =
          db.countP fun p => p.project_id == pid && p.similarity_group_id == some g := by
        apply List.countP_congr
        intro r hr
        simp only [Function.comp_apply]
        by_cases hc : (ms.any fun p => r.id == p.id) = true
        · rw [if_pos hc]
          have hrn : r.similarity_group_id = none := by
            apply hU r hr
            obtain ⟨p, hp, hbeq⟩ := List.any_eq_true.mp hc
            exact List.mem_map.mpr ⟨p, hp, (beq_iff_eq.mp hbeq).symm⟩
          have h1 : ((some gid : Option Nat) == some g) = false := by
            rw [beq_eq_false_iff_ne]
            intro hgg
            injection hgg with hgg
            exact hg hgg.symm
          have h2 : ((none : Option Nat) == some g) = false := by
            rw [beq_eq_false_iff_ne]
            intro hgg
            cases hgg
          simp only [h1, hrn, h2, Bool.and_false]
        · rw [if_neg hc]
      rw [hcong, ← countMembers_countP]
      exact hgood g
  · intro r' hr' hproj g hg
    obtain ⟨r, hr, hW⟩ := List.mem_map.mp hr'
    by_cases hc : (ms.any fun p => r.id == p.id) = true
    · rw [if_pos hc] at hW
      rw [← hW] at hg
      injection hg with hg
      omega
    · rw [if_neg hc] at hW
      subst hW
      have := hfresh r hr hproj g hg
      omega
  · apply forall₂_map_of
    intro x
    by_cases hc : (ms.any fun p => x.id == p.id) = true
    · rw [if_pos hc]
      refine ⟨rfl, rfl, Or.inr ?_⟩
      obtain ⟨p, hp, hbeq⟩ := List.any_eq_true.mp hc
      exact List.mem_map.mpr ⟨p, hp, (beq_iff_eq.mp hbeq).symm⟩
    · rw [if_neg hc]
      exact ⟨rfl, rfl, Or.inl rfl⟩

/-- Invariant preservation along one reply's proposal loop: with pairwise
disjoint applied id sets, rows about to be written still ungrouped, every
batch id present in the project, a fresh allocator and no singleton group,
`assignGroups` preserves all of it, never lowers the allocator, and only
touches batch rows. -/
theorem assignGroups_invariant (pid : Nat) (b : List Photo)
    (hbnd : (b.map Photo.id).Nodup) :
    ∀ (gs : List Json) (db : List Photo) (nextGid : Nat),
      (∀ g' ∈ gs, ∀ r ∈ db, r.id ∈ appliedIds b g' → r.similarity_group_id = none) →
      pairwiseApplied b gs →
      (∀ p ∈ b, ∃ r ∈ db, r.id = p.id ∧ r.project_id = pid) →
      freshGids db pid nextGid →
      goodCounts db pid →
      goodCounts (SimilarityGroupingService.assignGroups b gs db nextGid).1 pid ∧
      freshGids (SimilarityGroupingService.assignGroups b gs db nextGid).1 pid
        (SimilarityGroupingService.assignGroups b gs db nextGid).2.1 ∧
      nextGid ≤ (SimilarityGroupingService.assignGroups b gs db nextGid).2.1 ∧
      List.Forall₂ (GRel (b.map Photo.id)) db
        (SimilarityGroupingService.assignGroups b gs db nextGid).1 := by
  intro gs
  induction gs with
  | nil =>
    intro db nextGid _ _ _ hfresh hgood
    exact ⟨hgood, hfresh, le_rfl, forall₂_refl_of (gRel_refl _) db⟩
  | cons g gt ih =>
    intro db nextGid hUnt hpw hpres hfresh hgood
    simp only [pairwiseApplied] at hpw
    rw [SimilarityGroupingService.assignGroups]
    by_cases hnull : g.isNull = true
    · rw [if_pos hnull]
      exact ⟨hgood, hfresh, le_rfl, forall₂_refl_of (gRel_refl _) db⟩
    · rw [if_neg hnull]
      dsimp only
      by_cases hshort : repShort (photoIdsRep (getMember g "photo_ids")) = true
      · rw [if_pos hshort]
        exact ih db nextGid (fun g' hg' => hUnt g' (List.mem_cons_of_mem g hg'))
          ((List.pairwise_cons.mp hpw).2) hpres hfresh hgood
      · rw [if_neg hshort]
        cases hrep : photoIdsRep (getMember g "photo_ids") with
        | bad =>
          exact ⟨hgood, hfresh, le_rfl, forall₂_refl_of (gRel_refl _) db⟩
        | list l =>
          rw [hrep] at hshort
          dsimp only
          by_cases hml : (matchedOf b (PidsRep.list l)).length < 2
          · rw [if_pos hml]
            exact ih db nextGid (fun g' hg' => hUnt g' (List.mem_cons_of_mem g hg'))
              ((List.pairwise_cons.mp hpw).2) hpres hfresh hgood
          · rw [if_neg hml]
            have hlen : 2 ≤ (matchedOf b (PidsRep.list l)).length := by omega
            have happ : appliedIds b g = (matchedOf b (PidsRep.list l)).map Photo.id := by
              simp only [appliedIds, hrep, hnull, hshort, hml, Bool.false_eq_true, if_false,
                ite_false]
            have hmsnd := matchedOf_id_nodup b (PidsRep.list l) hbnd
            have hmspres : ∀ p ∈ matchedOf b (PidsRep.list l),
                ∃ r ∈ db, r.id = p.id ∧ r.project_id = pid :=
              fun p hp => hpres p (matchedOf_subset b _ p hp)
            have hmsU : ∀ r ∈ db, r.id ∈ (matchedOf b (PidsRep.list l)).map Photo.id →
                r.similarity_group_id = none := by
              intro r hr hid
              refine hUnt g (List.mem_cons_self g gt) r hr ?_
              rw [happ]
              exact hid
            obtain ⟨hgood₁, hfresh₁, hf₂⟩ := write_step pid nextGid
              (matchedOf b (PidsRep.list l)) db hlen hmsnd hmspres hfresh hgood hmsU
            have hUnt' : ∀ g' ∈ gt, ∀ r' ∈ (matchedOf b (PidsRep.list l)).foldl
                (fun acc p => setGroupId acc nextGid p.id) db,
                r'.id ∈ appliedIds b g' → r'.similarity_group_id = none := by
              intro g' hg' r' hr' hid
              obtain ⟨r, hr, hid_eq, hproj_eq, hgor⟩ := forall₂_mem_right hf₂ r' hr'
              rcases hgor with hkeep | hin
              · rw [hkeep]
                exact hUnt g' (List.mem_cons_of_mem g hg') r hr (hid_eq ▸ hid)
              · exfalso
                refine (List.pairwise_cons.mp hpw).1 g' hg' r.id ?_ (hid_eq ▸ hid)
                rw [happ]
                exact hin
            have hpres' : ∀ p ∈ b, ∃ r' ∈ (matchedOf b (PidsRep.list l)).foldl
                (fun acc p => setGroupId acc nextGid p.id) db,
                r'.id = p.id ∧ r'.project_id = pid := by
              intro p hp
              obtain ⟨r, hr, hrid, hrproj⟩ := hpres p hp
              obtain ⟨r', hr', hRw⟩ := forall₂_mem_left hf₂ r hr
              exact ⟨r', hr', hRw.1.trans hrid, hRw.2.1.trans hrproj⟩
            obtain ⟨hg2, hf2, hle2, hfa2⟩ := ih _ (nextGid + 1) hUnt'
              ((List.pairwise_cons.mp hpw).2) hpres' hfresh₁ hgood₁
            refine ⟨hg2, hf2, le_trans (Nat.le_succ nextGid) hle2, ?_⟩
            refine forall₂_trans_of (gRel_trans _) ?_ hfa2
            refine hf₂.imp ?_
            intro r r' hRw
            refine ⟨hRw.1, hRw.2.1, ?_⟩
            rcases hRw.2.2 with h | h
            · exact Or.inl h
            · refine Or.inr ?_
              obtain ⟨p, hp, hpid⟩ := List.mem_map.mp h
              exact List.mem_map.mpr ⟨p, matchedOf_subset b _ p hp, hpid⟩
        | str s =>
          rw [hrep] at hshort
          dsimp only
          by_cases hml : (matchedOf b (PidsRep.str s)).length < 2
          · rw [if_pos hml]
            exact ih db nextGid (fun g' hg' => hUnt g' (List.mem_cons_of_mem g hg'))
              ((List.pairwise_cons.mp hpw).2) hpres hfresh hgood
          · rw [if_neg hml]
            have hlen : 2 ≤ (matchedOf b (PidsRep.str s)).length := by omega
            have happ : appliedIds b g = (matchedOf b (PidsRep.str s)).map Photo.id := by
              simp only [appliedIds, hrep, hnull, hshort, hml, Bool.false_eq_true, if_false,
                ite_false]
            have hmsnd := matchedOf_id_nodup b (PidsRep.str s) hbnd
            have hmspres : ∀ p ∈ matchedOf b (PidsRep.str s),
                ∃ r ∈ db, r.id = p.id ∧ r.project_id = pid :=
              fun p hp => hpres p (matchedOf_subset b _ p hp)
            have hmsU : ∀ r ∈ db, r.id ∈ (matchedOf b (PidsRep.str s)).map Photo.id →
                r.similarity_group_id = none := by
              intro r hr hid
              refine hUnt g (List.mem_cons_self g gt) r hr ?_
              rw [happ]
              exact hid
            obtain ⟨hgood₁, hfresh₁, hf₂⟩ := write_step pid nextGid
              (matchedOf b (PidsRep.str s)) db hlen hmsnd hmspres hfresh hgood hmsU
            have hUnt' : ∀ g' ∈ gt, ∀ r' ∈ (matchedOf b (PidsRep.str s)).foldl
                (fun acc p => setGroupId acc nextGid p.id) db,
                r'.id ∈ appliedIds b g' → r'.similarity_group_id = none := by
              intro g' hg' r' hr' hid
              obtain ⟨r, hr, hid_eq, hproj_eq, hgor⟩ := forall₂_mem_right hf₂ r' hr'
              rcases hgor with hkeep | hin
              · rw [hkeep]
                exact hUnt g' (List.mem_cons_of_mem g hg') r hr (hid_eq ▸ hid)
              · exfalso
                refine (List.pairwise_cons.mp hpw).1 g' hg' r.id ?_ (hid_eq ▸ hid)
                rw [happ]
                exact hin
            have hpres' : ∀ p ∈ b, ∃ r' ∈ (matchedOf b (PidsRep.str s)).foldl
                (fun acc p => setGroupId acc nextGid p.id) db,
                r'.id = p.id ∧ r'.project_id = pid := by
              intro p hp
              obtain ⟨r, hr, hrid, hrproj⟩ := hpres p hp
              obtain ⟨r', hr', hRw⟩ := forall₂_mem_left hf₂ r hr
              exact ⟨r', hr', hRw.1.trans hrid, hRw.2.1.trans hrproj⟩
            obtain ⟨hg2, hf2, hle2, hfa2⟩ := ih _ (nextGid + 1) hUnt'
              ((List.pairwise_cons.mp hpw).2) hpres' hfresh₁ hgood₁
            refine ⟨hg2, hf2, le_trans (Nat.le_succ nextGid) hle2, ?_⟩
            refine forall₂_trans_of (gRel_trans _) ?_ hfa2
            refine hf₂.imp ?_
            intro r r' hRw
            refine ⟨hRw.1, hRw.2.1, ?_⟩
            rcases hRw.2.2 with h | h
            · exact Or.inl h
            · refine Or.inr ?_
              obtain ⟨p, hp, hpid⟩ := List.mem_map.mp h
              exact List.mem_map.mpr ⟨p, matchedOf_subset b _ p hp, hpid⟩

/-- The batch invariant survives `processBatch` with its full retry
skeleton: under pairwise disjoint proposals the store keeps no singleton
group, the allocator stays fresh and monotone, and only batch rows are
touched. -/
theorem processBatchF_invariant (env : VisionEnv) (pid : Nat) (b : List Photo)
    (hdisj : proposalsDisjoint env) (hbnd : (b.map Photo.id).Nodup) :
    ∀ (fuel : Nat) (db : List Photo) (nextGid idx rc : Nat),
      (∀ r ∈ db, r.id ∈ b.map Photo.id → r.similarity_group_id = none) →
      (∀ p ∈ b, ∃ r ∈ db, r.id = p.id ∧ r.project_id = pid) →
      freshGids db pid nextGid → goodCounts db pid →
      goodCounts (processBatchF env b fuel db nextGid idx rc).1 pid ∧
      freshGids (processBatchF env b fuel db nextGid idx rc).1 pid
        (processBatchF env b fuel db nextGid idx rc).2.1 ∧
      nextGid ≤ (processBatchF env b fuel db nextGid idx rc).2.1 ∧
      List.Forall₂ (GRel (b.map Photo.id)) db
        (processBatchF env b fuel db nextGid idx rc).1 := by
  intro fuel
  induction fuel with
  | zero =>
    intro db nextGid idx rc hU hpres hfresh hgood
    exact ⟨hgood, hfresh, le_rfl, forall₂_refl_of (gRel_refl _) db⟩
  | succ f ih =>
    intro db nextGid idx rc hU hpres hfresh hgood
    rw [processBatchF]
    split
    · exact ⟨hgood, hfresh, le_rfl, forall₂_refl_of (gRel_refl _) db⟩
    · cases hsvc : env.svc idx with
      | replyText t =>
        dsimp only
        cases hgs : groupsList (SimilarityGroupingService.parseResponse t) with
        | error u =>
          exact ⟨hgood, hfresh, le_rfl, forall₂_refl_of (gRel_refl _) db⟩
        | ok gs =>
          have hpw : pairwiseApplied b gs := by
            have h := hdisj idx t hsvc b
            rw [proposalsOf, hgs] at h
            exact h
          have hUnt : ∀ g' ∈ gs, ∀ r ∈ db, r.id ∈ appliedIds b g' →
              r.similarity_group_id = none :=
            fun g' _ r hr hid => hU r hr (appliedIds_subset b g' r.id hid)
          obtain ⟨h1, h2, h3, h4⟩ := assignGroups_invariant pid b hbnd gs db nextGid
            hUnt hpw hpres hfresh hgood
          exact ⟨h1, h2, h3, h4⟩
      | replyNonText =>
        exact ⟨hgood, hfresh, le_rfl, forall₂_refl_of (gRel_refl _) db⟩
      | replyEmpty =>
        exact ⟨hgood, hfresh, le_rfl, forall₂_refl_of (gRel_refl _) db⟩
      | failure =>
        exact ⟨hgood, hfresh, le_rfl, forall₂_refl_of (gRel_refl _) db⟩
      | rateLimit =>
        dsimp only
        split
        · obtain ⟨h1, h2, h3, h4⟩ := ih db nextGid (idx + 1) (rc + 1) hU hpres hfresh hgood
          exact ⟨h1, h2, h3, h4⟩
        · exact ⟨hgood, hfresh, le_rfl, forall₂_refl_of (gRel_refl _) db⟩

/-- The run invariant survives the whole batch loop: batches hold pairwise
distinct ids, later batches are disjoint from the current one, and a failed
batch leaves the store as it was, so no singleton group ever appears. -/
theorem groupLoop_invariant (env : VisionEnv) (pid : Nat)
    (hdisj : proposalsDisjoint env) :
    ∀ (L : List (List Photo)) (db : List Photo) (nextGid idx : Nat),
      (L.flatten.map Photo.id).Nodup →
      (∀ r ∈ db, r.id ∈ L.flatten.map Photo.id → r.similarity_group_id = none) →
      (∀ p ∈ L.flatten, ∃ r ∈ db, r.id = p.id ∧ r.project_id = pid) →
      freshGids db pid nextGid → goodCounts db pid →
      goodCounts (groupLoop env L db nextGid idx).1 pid := by
  intro L
  induction L with
  | nil =>
    intro db nextGid idx _ _ _ _ hgood
    exact hgood
  | cons b bs ih =>
    intro db nextGid idx hnd hU hpres hfresh hgood
    have hnd' : (b.map Photo.id ++ bs.flatten.map Photo.id).Nodup := by
      simpa [List.flatten_cons] using hnd
    have hbnd : (b.map Photo.id).Nodup := (List.nodup_append.mp hnd').1
    have htnd : (bs.flatten.map Photo.id).Nodup := (List.nodup_append.mp hnd').2.1
    have hdj : (b.map Photo.id).Disjoint (bs.flatten.map Photo.id) :=
      (List.nodup_append.mp hnd').2.2
    have hUb : ∀ r ∈ db, r.id ∈ b.map Photo.id → r.similarity_group_id = none := by
      intro r hr hid
      exact hU r hr (by
        simp only [List.flatten_cons, List.map_append, List.mem_append]
        exact Or.inl hid)
    have hUt : ∀ r ∈ db, r.id ∈ bs.flatten.map Photo.id → r.similarity_group_id = none := by
      intro r hr hid
      exact hU r hr (by
        simp only [List.flatten_cons, List.map_append, List.mem_append]
        exact Or.inr hid)
    have hpres_b : ∀ p ∈ b, ∃ r ∈ db, r.id = p.id ∧ r.project_id = pid := by
      intro p hp
      exact hpres p (by
        simp only [List.flatten_cons, List.mem_append]
        exact Or.inl hp)
    have hpres_t : ∀ p ∈ bs.flatten, ∃ r ∈ db, r.id = p.id ∧ r.project_id = pid := by
      intro p hp
      exact hpres p (by
        simp only [List.flatten_cons, List.mem_append]
        exact Or.inr hp)
    rw [groupLoop]
    split
    · exact ih db nextGid idx htnd hUt hpres_t hfresh hgood
    · cases hpb : SimilarityGroupingService.processBatch env db b nextGid idx with
      | mk db' rest =>
        obtain ⟨gid', r, ds, idx'⟩ := rest
        have hmain := processBatchF_invariant env pid b hdisj hbnd 4 db nextGid idx 0
          hUb hpres_b hfresh hgood
        rw [show processBatchF env b 4 db nextGid idx 0 =
          SimilarityGroupingService.processBatch env db b nextGid idx from rfl,
          hpb] at hmain
        obtain ⟨hgood', hfresh', hle', hfa'⟩ := hmain
        have hUt' : ∀ r' ∈ db', r'.id ∈ bs.flatten.map Photo.id →
            r'.similarity_group_id = none := by
          intro r' hr' hid
          obtain ⟨r0, hr0, hid_eq, hproj_eq, hgor⟩ := forall₂_mem_right hfa' r' hr'
          rcases hgor with hkeep | hin
          · rw [hkeep]
            exact hUt r0 hr0 (hid_eq ▸ hid)
          · exact absurd (hid_eq ▸ hid) (hdj hin)
        have hpres_t' : ∀ p ∈ bs.flatten, ∃ r' ∈ db', r'.id = p.id ∧ r'.project_id = pid := by
          intro p hp
          obtain ⟨r0, hr0, hrid, hrproj⟩ := hpres_t p hp
          obtain ⟨r', hr', hRw⟩ := forall₂_mem_left hfa' r0 hr0
          exact ⟨r', hr', hRw.1.trans hrid, hRw.2.1.trans hrproj⟩
        exact ih db' gid' idx' htnd hUt' hpres_t' hfresh' hgood'

theorem goodCounts_mem (db : List Photo) (pid : Nat) (hgood : goodCounts db pid) :
    ∀ p ∈ db, p.project_id = pid → ∀ g, p.similarity_group_id = some g →
      2 ≤ countMembers db pid g := by
  intro p hp hproj g hg
  have hmem : p ∈ db.filter fun q =>
      q.project_id == pid && q.similarity_group_id == some g := by
    refine List.mem_filter.mpr ⟨hp, ?_⟩
    rw [Bool.and_eq_true]
    exact ⟨beq_iff_eq.mpr hproj, by rw [hg]; simp⟩
  have h1 : 0 < countMembers db pid g := List.length_pos_of_mem hmem
  rcases hgood g with h0 | h2
  · omega
  · exact h2

/-- C3 (amended): provided the store's photo ids are pairwise distinct (the
table's primary key) and the applied id sets of the proposals within any
one service reply are pairwise disjoint, after any run of the Grouping
Reconciler every non-null similarity-group id persisted in the project is
shared by at least 2 photos of that project.  Without the disjointness
proviso the claim fails: a later proposal of the same reply can steal a
photo from an earlier group, leaving that group with one member. -/
theorem grouping_no_singleton_groups (env : VisionEnv) (db : List Photo)
    (projectId : Nat) (hnd : (db.map Photo.id).Nodup)
    (hdisj : proposalsDisjoint env) :
    ∀ p ∈ (SimilarityGroupingService.groupPhotos env db projectId).1,
      p.project_id = projectId → ∀ g, p.similarity_group_id = some g →
        2 ≤ countMembers (SimilarityGroupingService.groupPhotos env db projectId).1
          projectId g := by
  have hnd₀ : ((clearGroups db projectId).map Photo.id).Nodup := by
    rw [clearGroups_map_id]
    exact hnd
  rw [SimilarityGroupingService.groupPhotos]
  split
  · intro p hp hproj g hg
    rw [clearGroups_pid_none db projectId p hp hproj] at hg
    cases hg
  · have hperm : (sortById ((clearGroups db projectId).filter
        fun p => p.project_id == projectId)).Perm
          ((clearGroups db projectId).filter fun p => p.project_id == projectId) :=
      List.perm_insertionSort _ _
    have hfilnd : (((clearGroups db projectId).filter
        fun p => p.project_id == projectId).map Photo.id).Nodup :=
      hnd₀.sublist ((List.filter_sublist (clearGroups db projectId)).map Photo.id)
    have hpnd : ((sortById ((clearGroups db projectId).filter
        fun p => p.project_id == projectId)).map Photo.id).Nodup :=
      ((hperm.map Photo.id).nodup_iff).mpr hfilnd
    have hflat : (chunks 20 (sortById ((clearGroups db projectId).filter
        fun p => p.project_id == projectId))).flatten =
          sortById ((clearGroups db projectId).filter
            fun p => p.project_id == projectId) :=
      chunksF_flatten 20 _ _ (by norm_num) le_rfl
    refine goodCounts_mem _ projectId ?_
    refine groupLoop_invariant env projectId hdisj _ _ 1 0 ?_ ?_ ?_ ?_ ?_
    · rw [hflat]
      exact hpnd
    · intro r hr hid
      rw [hflat] at hid
      obtain ⟨p, hp, hpid⟩ := List.mem_map.mp hid
      have hpfil : p ∈ (clearGroups db projectId).filter
          fun p => p.project_id == projectId := hperm.subset hp
      have hpdb : p ∈ clearGroups db projectId := List.mem_of_mem_filter hpfil
      have hrp : r = p :=
        List.inj_on_of_nodup_map hnd₀ hr hpdb hpid.symm
      have hpproj : (p.project_id == projectId) = true := (List.mem_filter.mp hpfil).2
      rw [hrp]
      exact clearGroups_pid_none db projectId p hpdb (beq_iff_eq.mp hpproj)
    · intro p hp
      rw [hflat] at hp
      have hpfil : p ∈ (clearGroups db projectId).filter
          fun p => p.project_id == projectId := hperm.subset hp
      have hpproj : (p.project_id == projectId) = true := (List.mem_filter.mp hpfil).2
      exact ⟨p, List.mem_of_mem_filter hpfil, rfl, beq_iff_eq.mp hpproj⟩
    · intro r hr hproj g hg
      rw [clearGroups_pid_none db projectId r hr hproj] at hg
      cases hg
    · intro g
      left
      have hnil : (clearGroups db projectId).filter (fun p =>
          p.project_id == projectId && p.similarity_group_id == some g) = [] := by
        refine List.filter_eq_nil_iff.mpr ?_
        intro r hr hpred
        rw [Bool.and_eq_true] at hpred
        obtain ⟨hproj, hgid⟩ := hpred
        rw [clearGroups_pid_none db projectId r hr (beq_iff_eq.mp hproj)] at hgid
        cases hgid
      simp only [countMembers, hnil, List.length_nil]

/-- Witness for the amended C3: two photos of one project and a service
always replying with the single proposal `[1, 2]`; both hypotheses hold
and the theorem applies. -/
theorem grouping_no_singleton_groups_witness :
    ((([⟨1, 5, "a", "oa", "ta", "ha", 0, none, none, false, none, 0, 0⟩,
        ⟨2, 5, "b", "ob", "tb", "hb", 0, none, none, false, none, 0, 0⟩] :
          List Photo).map Photo.id).Nodup ∧
      proposalsDisjoint ⟨fun _ => .replyText
        "\x7b\"groups\":[\x7b\"photo_ids\":[1,2],\"reason\":\"pair\"\x7d]\x7d",
        fun _ => some "img", 3⟩) ∧
    (∀ p ∈ (SimilarityGroupingService.groupPhotos
        ⟨fun _ => .replyText
          "\x7b\"groups\":[\x7b\"photo_ids\":[1,2],\"reason\":\"pair\"\x7d]\x7d",
          fun _ => some "img", 3⟩
        [⟨1, 5, "a", "oa", "ta", "ha", 0, none, none, false, none, 0, 0⟩,
          ⟨2, 5, "b", "ob", "tb", "hb", 0, none, none, false, none, 0, 0⟩] 5).1,
      p.project_id = 5 → ∀ g, p.similarity_group_id = some g →
        2 ≤ countMembers (SimilarityGroupingService.groupPhotos
          ⟨fun _ => .replyText
            "\x7b\"groups\":[\x7b\"photo_ids\":[1,2],\"reason\":\"pair\"\x7d]\x7d",
            fun _ => some "img", 3⟩
          [⟨1, 5, "a", "oa", "ta", "ha", 0, none, none, false, none, 0, 0⟩,
            ⟨2, 5, "b", "ob", "tb", "hb", 0, none, none, false, none, 0, 0⟩] 5).1
          5 g) := by
  refine ⟨⟨by decide, ?_⟩, ?_⟩
  · intro i t h b
    cases h
    apply pairwiseApplied_of_short
    decide
  · apply grouping_no_singleton_groups
    · decide
    · intro i t h b
      cases h
      apply pairwiseApplied_of_short
      decide

/-- Counterexample to C3 as stated: one reply carrying the two overlapping
proposals `[1, 2]` and `[2, 3]` on a batch of three photos.  The second
proposal steals photo 2 from group 1, and the run persists group 1 with
exactly one member (photo 1) — a singleton group. -/
theorem grouping_singleton_counterexample :
    ((SimilarityGroupingService.groupPhotos
        ⟨fun _ => .replyText
          "\x7b\"groups\":[\x7b\"photo_ids\":[1,2],\"reason\":\"a\"\x7d,\x7b\"photo_ids\":[2,3],\"reason\":\"b\"\x7d]\x7d",
          fun _ => some "img", 3⟩
        [⟨1, 5, "a", "oa", "ta", "ha", 0, none, none, false, none, 0, 0⟩,
          ⟨2, 5, "b", "ob", "tb", "hb", 0, none, none, false, none, 0, 0⟩,
          ⟨3, 5, "c", "oc", "tc", "hc", 0, none, none, false, none, 0, 0⟩] 5).1.map
      fun p => p.similarity_group_id) = [some 1, some 2, some 2] ∧
    countMembers (SimilarityGroupingService.groupPhotos
        ⟨fun _ => .replyText
          "\x7b\"groups\":[\x7b\"photo_ids\":[1,2],\"reason\":\"a\"\x7d,\x7b\"photo_ids\":[2,3],\"reason\":\"b\"\x7d]\x7d",
          fun _ => some "img", 3⟩
        [⟨1, 5, "a", "oa", "ta", "ha", 0, none, none, false, none, 0, 0⟩,
          ⟨2, 5, "b", "ob", "tb", "hb", 0, none, none, false, none, 0, 0⟩,
          ⟨3, 5, "c", "oc", "tc", "hc", 0, none, none, false, none, 0, 0⟩] 5).1
      5 1 = 1 := by
  exact ⟨by decide, by decide⟩

end PhotoSelector
